import Mathlib

/-!
# Verification of the transport-network routing core

A shallow embedding of `src/src/transport-network.cpp` /
`src/inc/network-monitor/transport-network.h`.

Modelling conventions:
* `std::string` ids are `String`.
* `std::shared_ptr<GraphNode>` pointers are station ids: the `stations_` map
  binds each id to a single node that is never replaced, so pointer equality
  on nodes coincides with id equality.
* `std::shared_ptr<RouteInternal>` pointers are modelled by a globally unique
  numeric key (`routeKey`), freshly allocated per `AddRouteToLine` call: two
  internal route objects are the same pointer iff they have the same key.
* `std::shared_ptr<GraphEdge>` pointers: each edge object lives in exactly one
  station's `edges` vector, so an edge reference is the pair
  (source station id, index in that station's edge list).
* Unsigned integers are `Nat`, the signed passenger count is `Int`.
* `throw` is `Except.error`; C++ functions that cannot throw stay total.
* The iteration order of `std::unordered_map` is unspecified in C++; the model
  uses insertion-ordered association lists.
-/

/-- `TravelRoute::Step`. -/
structure Step where
  startStationId : String
  endStationId : String
  lineId : String
  routeId : String
  travelTime : Nat
deriving DecidableEq, Repr

/-- `TravelRoute`. -/
structure TravelRoute where
  startStationId : String
  endStationId : String
  totalTravelTime : Nat
  steps : List Step
deriving DecidableEq, Repr

/-- `Station` (public struct). -/
structure Station where
  id : String
  name : String
deriving DecidableEq, Repr

/-- `Route` (public struct). -/
structure Route where
  id : String
  direction : String
  lineId : String
  startStationId : String
  endStationId : String
  stops : List String
deriving DecidableEq, Repr

/-- `Line` (public struct). -/
structure Line where
  id : String
  name : String
  routes : List Route
deriving DecidableEq, Repr

/-- `PassengerEvent::Type`. -/
inductive PEType where
  | In : PEType
  | Out : PEType
deriving DecidableEq, Repr

/-- `PassengerEvent` (the timestamp is carried but never read by the
counting logic, exactly as in the source). -/
structure PassengerEvent where
  stationId : String
  type : PEType
  timestamp : Nat
deriving DecidableEq, Repr

/-- `TransportNetwork::GraphEdge`.  The owning route pointer is the pair
(`routeKey` = pointer identity, plus the immutable `id` and owning line id of
the pointed-to `RouteInternal`, which the source reads through the pointer). -/
structure GraphEdge where
  routeKey : Nat
  routeId : String
  routeLineId : String
  nextStop : String
  travelTime : Nat
deriving DecidableEq, Repr

/-- `TransportNetwork::GraphNode`. -/
structure GraphNode where
  id : String
  name : String
  passengerCount : Int
  edges : List GraphEdge
deriving DecidableEq, Repr

/-- `TransportNetwork::RouteInternal` (stops are node pointers = ids). -/
structure RouteInternal where
  key : Nat
  id : String
  lineId : String
  stops : List String
deriving DecidableEq, Repr

/-- `TransportNetwork::LineInternal`. -/
structure LineInternal where
  id : String
  name : String
  routes : List (String × RouteInternal)
deriving DecidableEq, Repr

/-- The `TransportNetwork` state: the two id-keyed maps plus the allocator
for route-pointer identities. -/
structure TransportNetwork where
  stations : List (String × GraphNode)
  lines : List (String × LineInternal)
  nextRouteKey : Nat
deriving DecidableEq, Repr

/-- The freshly constructed network. -/
def emptyNetwork : TransportNetwork := ⟨[], [], 0⟩

/-! ## Association-list primitives (model of `std::unordered_map`) -/

/-- Lookup in an association list (`map.find`). -/
def alookup {α β : Type} [DecidableEq α] : List (α × β) → α → Option β
  | [], _ => none
  | (k, v) :: l, k' => if k' = k then some v else alookup l k'

/-- Insert-or-assign (`map[k] = v`): update in place if the key is present,
append otherwise. -/
def aupdate {α β : Type} [DecidableEq α] : List (α × β) → α → β → List (α × β)
  | [], k, v => [(k, v)]
  | (k0, v0) :: l, k, v =>
      if k = k0 then (k, v) :: l else (k0, v0) :: aupdate l k v

/-! ## Lookup helpers (`GetStation`, `GetLine`, `GetRoute`) -/

/-- `TransportNetwork::GetStation`. -/
def GetStation (net : TransportNetwork) (stationId : String) : Option GraphNode :=
  alookup net.stations stationId

/-- `TransportNetwork::GetLine`. -/
def GetLine (net : TransportNetwork) (lineId : String) : Option LineInternal :=
  alookup net.lines lineId

/-- `TransportNetwork::GetRoute`. -/
def GetRoute (net : TransportNetwork) (lineId routeId : String) : Option RouteInternal :=
  match GetLine net lineId with
  | none => none
  | some line => alookup line.routes routeId

/-- The edge list of a station id (empty if the station is unknown; in the
source the node pointer is always valid, so the `none` branch is dead on
states reachable through the API). -/
def edgesOf (net : TransportNetwork) (stationId : String) : List GraphEdge :=
  match GetStation net stationId with
  | none => []
  | some n => n.edges

/-! ## Mutations: stations, lines, routes -/

/-- `TransportNetwork::AddStation`. -/
def AddStation (station : Station) (net : TransportNetwork) :
    Bool × TransportNetwork :=
  match GetStation net station.id with
  | some _ => (false, net)
  | none =>
      (true,
       { net with
         stations := net.stations ++ [(station.id, ⟨station.id, station.name, 0, []⟩)] })

/-- Append one edge to the edge list of station `a` (no-op on an unknown
station; unreachable through the API because stops are validated first). -/
def addEdgeAt (net : TransportNetwork) (a : String) (e : GraphEdge) :
    TransportNetwork :=
  match alookup net.stations a with
  | none => net
  | some n =>
      { net with stations := aupdate net.stations a { n with edges := n.edges ++ [e] } }

/-- The edge-installation loop of `AddRouteToLine`: one edge per consecutive
stop pair, appended at the earlier stop. -/
def installEdges (rk : Nat) (rid lid : String) :
    List String → TransportNetwork → TransportNetwork
  | a :: b :: rest, net =>
      installEdges rk rid lid (b :: rest)
        (addEdgeAt net a ⟨rk, rid, lid, b, 0⟩)
  | _, net => net

/-- The stop-gathering loop of `AddRouteToLine`: all stops must already be
stations of the network. -/
def stopsExist (net : TransportNetwork) : List String → Bool
  | [] => true
  | s :: rest => (GetStation net s).isSome && stopsExist net rest

/-- `TransportNetwork::AddRouteToLine`.  Returns `none` on failure (duplicate
route id in the line, or a stop that is not a station); on failure nothing has
been mutated yet, exactly as in the source (both checks precede the edge
installation). -/
def AddRouteToLine (route : Route) (li : LineInternal) (net : TransportNetwork) :
    Option (LineInternal × TransportNetwork) :=
  if (alookup li.routes route.id).isSome then none
  else if !stopsExist net route.stops then none
  else
    let rk := net.nextRouteKey
    let ri : RouteInternal := ⟨rk, route.id, li.id, route.stops⟩
    let net' := installEdges rk route.id li.id route.stops net
    some ({ li with routes := li.routes ++ [(route.id, ri)] },
          { net' with nextRouteKey := rk + 1 })

/-- The route loop of `AddLine`: threads the line-under-construction and the
network; a failing route aborts, keeping whatever the earlier successful
routes already installed. -/
def addRoutesAux : List Route → LineInternal → TransportNetwork →
    Option LineInternal × TransportNetwork
  | [], li, net => (some li, net)
  | r :: rs, li, net =>
      match AddRouteToLine r li net with
      | none => (none, net)
      | some (li', net') => addRoutesAux rs li' net'

/-- `TransportNetwork::AddLine`. -/
def AddLine (line : Line) (net : TransportNetwork) : Bool × TransportNetwork :=
  match GetLine net line.id with
  | some _ => (false, net)
  | none =>
      match addRoutesAux line.routes ⟨line.id, line.name, []⟩ net with
      | (none, net') => (false, net')
      | (some li, net') =>
          (true, { net' with lines := net'.lines ++ [(line.id, li)] })

/-! ## Passenger events -/

/-- `TransportNetwork::RecordPassengerEvent`. -/
def RecordPassengerEvent (event : PassengerEvent) (net : TransportNetwork) :
    Bool × TransportNetwork :=
  match alookup net.stations event.stationId with
  | none => (false, net)
  | some n =>
      match event.type with
      | PEType.In =>
          let n' := { n with passengerCount := n.passengerCount + 1 }
          (true, { net with stations := aupdate net.stations event.stationId n' })
      | PEType.Out =>
          let n' := { n with passengerCount := n.passengerCount - 1 }
          (true, { net with stations := aupdate net.stations event.stationId n' })

/-- `TransportNetwork::GetPassengerCount` (`none` models the
`std::runtime_error` throw on an unknown station). -/
def GetPassengerCount (net : TransportNetwork) (station : String) : Option Int :=
  match GetStation net station with
  | none => none
  | some n => some n.passengerCount

/-! ## Routes serving a station -/

/-- The terminal-stop scan of `GetRoutesServingStation`: routes (over all
lines) whose last stop is the given station. -/
def terminalRoutes (stationId : String) (lines : List (String × LineInternal)) :
    List String :=
  lines.flatMap (fun lp =>
    lp.2.routes.filterMap (fun rp =>
      if rp.2.stops.getLast? = some stationId then some rp.2.id else none))

/-- `TransportNetwork::GetRoutesServingStation`. -/
def GetRoutesServingStation (net : TransportNetwork) (station : String) :
    List String :=
  match GetStation net station with
  | none => []
  | some n => n.edges.map (·.routeId) ++ terminalRoutes station net.lines

/-! ## Travel times -/

/-- The edge-updating lambda of `SetTravelTime` applied to one node: set every
edge pointing at `target` to time `t`, and report whether any matched. -/
def setEdgeTimes (n : GraphNode) (target : String) (t : Nat) :
    GraphNode × Bool :=
  let newEdges :=
    n.edges.map (fun e => if e.nextStop = target then { e with travelTime := t } else e)
  ({ n with edges := newEdges }, n.edges.any (fun e => e.nextStop = target))

/-- `TransportNetwork::SetTravelTime`.  The two lambda invocations are
sequenced: the second lookup happens on the already-updated network (which
matters only when `stationA = stationB`, matching the aliasing of the C++
node pointers). -/
def SetTravelTime (stationA stationB : String) (travelTime : Nat)
    (net : TransportNetwork) : Bool × TransportNetwork :=
  match GetStation net stationA, GetStation net stationB with
  | some _, some _ =>
      let net1 :=
        match alookup net.stations stationA with
        | none => net
        | some nA =>
            let nA' := (setEdgeTimes nA stationB travelTime).1
            { net with stations := aupdate net.stations stationA nA' }
      let found1 :=
        match alookup net.stations stationA with
        | none => false
        | some nA => (setEdgeTimes nA stationB travelTime).2
      let net2 :=
        match alookup net1.stations stationB with
        | none => net1
        | some nB =>
            let nB' := (setEdgeTimes nB stationA travelTime).1
            { net1 with stations := aupdate net1.stations stationB nB' }
      let found2 :=
        match alookup net1.stations stationB with
        | none => false
        | some nB => (setEdgeTimes nB stationA travelTime).2
      (found1 || found2, net2)
  | _, _ => (false, net)

/-- `TransportNetwork::GetTravelTime` (two-station overload): the first edge
`A -> B`, else the first edge `B -> A`, else `0`. -/
def GetTravelTime (net : TransportNetwork) (stationA stationB : String) : Nat :=
  match GetStation net stationA, GetStation net stationB with
  | some nA, some nB =>
      match nA.edges.find? (fun e => e.nextStop = stationB) with
      | some e => e.travelTime
      | none =>
          match nB.edges.find? (fun e => e.nextStop = stationA) with
          | some e => e.travelTime
          | none => 0
  | _, _ => 0

/-- `GraphNode::FindEdgeForRoute`: the first edge of the node owned by the
given internal route (pointer identity = key). -/
def findEdgeForRoute (net : TransportNetwork) (stationId : String) (rk : Nat) :
    Option GraphEdge :=
  (edgesOf net stationId).find? (fun e => e.routeKey = rk)

/-- The stop-walking loop of the four-argument `GetTravelTime`. -/
def routeWalk (net : TransportNetwork) (rk : Nat) (stationA stationB : String) :
    List String → Bool → Nat → Nat
  | [], _, _ => 0
  | stop :: rest, foundA, acc =>
      let foundA' := foundA || (stop = stationA)
      if stop = stationB then acc
      else if foundA' then
        match findEdgeForRoute net stop rk with
        | none => 0
        | some e => routeWalk net rk stationA stationB rest foundA' (acc + e.travelTime)
      else routeWalk net rk stationA stationB rest foundA' acc

/-- `TransportNetwork::GetTravelTime` (line/route overload). -/
def GetTravelTimeOnRoute (net : TransportNetwork)
    (line route stationA stationB : String) : Nat :=
  match GetRoute net line route with
  | none => 0
  | some ri =>
      match GetStation net stationA, GetStation net stationB with
      | some _, some _ => routeWalk net ri.key stationA stationB ri.stops false 0
      | _, _ => 0

/-! ## Bulk ingest (`FromJson`) -/

/-- One entry of the `stations` JSON array. -/
structure StationJson where
  station_id : String
  name : String
deriving DecidableEq, Repr

/-- One entry of a line's `routes` JSON array. -/
structure RouteJson where
  route_id : String
  direction : String
  line_id : String
  start_station_id : String
  end_station_id : String
  route_stops : List String
deriving DecidableEq, Repr

/-- One entry of the `lines` JSON array. -/
structure LineJson where
  line_id : String
  name : String
  routes : List RouteJson
deriving DecidableEq, Repr

/-- One entry of the `travel_times` JSON array. -/
structure TravelTimeJson where
  start_station_id : String
  end_station_id : String
  travel_time : Nat
deriving DecidableEq, Repr

/-- A parsed topology JSON object.  `travel_times = none` models the absence
of the `travel_times` key, on which `src.at("travel_times")` throws
`nlohmann::json::out_of_range`. -/
structure TopologyJson where
  stations : List StationJson
  lines : List LineJson
  travel_times : Option (List TravelTimeJson)
deriving DecidableEq, Repr

/-- The station loop of `FromJson`: `ok &= AddStation(...); if (!ok) throw`. -/
def loadStations (net : TransportNetwork) :
    List StationJson → Except String TransportNetwork
  | [] => Except.ok net
  | s :: rest =>
      match AddStation ⟨s.station_id, s.name⟩ net with
      | (false, _) => Except.error ("Could not add station " ++ s.station_id)
      | (true, net') => loadStations net' rest

/-- Conversion of one line JSON entry to the public `Line` struct, routes
included, exactly as assembled by the loader. -/
def lineOfJson (lj : LineJson) : Line :=
  ⟨lj.line_id, lj.name,
   lj.routes.map (fun rj =>
     ⟨rj.route_id, rj.direction, rj.line_id, rj.start_station_id,
      rj.end_station_id, rj.route_stops⟩)⟩

/-- The line loop of `FromJson`: `ok &= AddLine(...); if (!ok) throw`. -/
def loadLines (net : TransportNetwork) :
    List LineJson → Except String TransportNetwork
  | [] => Except.ok net
  | lj :: rest =>
      match AddLine (lineOfJson lj) net with
      | (false, _) => Except.error ("Could not add line " ++ lj.line_id)
      | (true, net') => loadLines net' rest

/-- The travel-time loop of `FromJson`: `ok &= SetTravelTime(...)` with no
early exit and no throw. -/
def applyTravelTimes : List TravelTimeJson → TransportNetwork →
    Bool × TransportNetwork
  | [], net => (true, net)
  | t :: rest, net =>
      let (ok1, net') := SetTravelTime t.start_station_id t.end_station_id t.travel_time net
      let (okRest, net'') := applyTravelTimes rest net'
      (ok1 && okRest, net'')

/-- The first two loops of `FromJson` (stations, then lines), either of which
throws on an `AddStation`/`AddLine` failure. -/
def loadStructure (src : TopologyJson) : Except String TransportNetwork :=
  match loadStations emptyNetwork src.stations with
  | Except.error e => Except.error e
  | Except.ok net1 => loadLines net1 src.lines

/-- `TransportNetwork::FromJson` on a default-constructed network. -/
def FromJson (src : TopologyJson) : Except String (Bool × TransportNetwork) :=
  match loadStructure src with
  | Except.error e => Except.error e
  | Except.ok net2 =>
      match src.travel_times with
      | none => Except.error "[json.exception.out_of_range.403] key travel_times not found"
      | some ts => Except.ok (applyTravelTimes ts net2)

/-! ## Path engine (`GetFastestTravelRoute`) -/

/-- A `std::shared_ptr<GraphEdge>` reference: the source station id and the
index of the edge in that station's edge list (each edge object lives in
exactly one such slot). -/
structure EdgeRef where
  src : String
  idx : Nat
deriving DecidableEq, Repr

/-- `TransportNetwork::PathStop`: a node pointer plus the (possibly null)
arriving-edge pointer. -/
structure PathStop where
  node : String
  edge : Option EdgeRef
deriving DecidableEq, Repr

/-- Dereference an edge pointer. -/
def derefEdge (net : TransportNetwork) (r : EdgeRef) : Option GraphEdge :=
  (edgesOf net r.src).get? r.idx

/-- The route-change penalty added when relaxing edge `e` out of `p`:
`5` iff the arriving edge exists and its owning route differs (pointer
identity = key) from `e`'s. -/
def penalty (net : TransportNetwork) (p : PathStop) (e : GraphEdge) : Nat :=
  match p.edge with
  | none => 0
  | some r =>
      match derefEdge net r with
      | none => 0
      | some eIn => if eIn.routeKey = e.routeKey then 0 else 5

/-- The mutable state of the Dijkstra loop: `distFromA`, `previousStop`, and
the priority queue (as a multiset of entries). -/
structure DijkstraState where
  dist : List (PathStop × Nat)
  prev : List (PathStop × PathStop)
  queue : List (PathStop × Nat)
deriving DecidableEq, Repr

/-- `priority_queue::top/pop` for the min-by-distance order induced by
`PathStopDistCmp`: remove a minimal-distance entry (the first one, ties being
unspecified in the source). -/
def popMin : List (PathStop × Nat) → Option ((PathStop × Nat) × List (PathStop × Nat))
  | [] => none
  | x :: xs =>
      match popMin xs with
      | none => some (x, [])
      | some (y, ys) => if x.2 ≤ y.2 then some (x, xs) else some (y, x :: ys)

/-- One relaxation of the neighbor reached through edge `e` (stored at index
`i` of the popped station's edge list), from popped stop `p` whose popped
distance is `d`.  Stops in `excluded` are skipped (the public search passes
the empty set). -/
def relaxOne (net : TransportNetwork) (excluded : List PathStop) (p : PathStop)
    (d : Nat) (i : Nat) (e : GraphEdge) (st : DijkstraState) : DijkstraState :=
  let neighbor : PathStop := ⟨e.nextStop, some ⟨p.node, i⟩⟩
  if neighbor ∈ excluded then st
  else
    let cand := d + e.travelTime + penalty net p e
    match alookup st.dist neighbor with
    | none =>
        ⟨aupdate st.dist neighbor cand, aupdate st.prev neighbor p,
         (neighbor, cand) :: st.queue⟩
    | some old =>
        if cand < old then
          ⟨aupdate st.dist neighbor cand, aupdate st.prev neighbor p,
           (neighbor, cand) :: st.queue⟩
        else st

/-- The neighborhood-exploration loop over the popped station's edges
(with their indices, starting at `i`). -/
def relaxEdges (net : TransportNetwork) (excluded : List PathStop) (p : PathStop)
    (d : Nat) : List GraphEdge → Nat → DijkstraState → DijkstraState
  | [], _, st => st
  | e :: es, i, st =>
      relaxEdges net excluded p d es (i + 1) (relaxOne net excluded p d i e st)

/-- The main Dijkstra loop, fuel-indexed (the source's `while` loop; `none`
means the fuel ran out before the queue drained). -/
def dijkstraLoop (net : TransportNetwork) (stationB : String)
    (excluded : List PathStop) : Nat → DijkstraState → Option DijkstraState
  | 0, _ => none
  | fuel + 1, st =>
      match popMin st.queue with
      | none => some st
      | some ((currStop, d), rest) =>
          if currStop.node = stationB then
            dijkstraLoop net stationB excluded fuel { st with queue := rest }
          else
            dijkstraLoop net stationB excluded fuel
              (relaxEdges net excluded currStop d (edgesOf net currStop.node) 0
                { st with queue := rest })

/-- `std::sort` descending by distance followed by `back()`: a
minimal-distance element of `pathsToB` (the first one; ties are unspecified
in the source). -/
def selectMin : List (PathStop × Nat) → Option (PathStop × Nat)
  | [] => none
  | x :: xs => some (xs.foldl (fun b y => if y.2 < b.2 then y else b) x)

/-- The path-assembly `while` loop: follow `previousStop` back from `stop`
until a stop at station A, emitting one step per link (in B-to-A order; the
caller reverses).  `none` models the failures that cannot occur on a run of
the algorithm (a missing `previousStop` entry is `map::at` throwing; a null
`stop.edge` dereference). -/
def reconstruct (net : TransportNetwork) (prev : List (PathStop × PathStop))
    (stationA : String) : Nat → PathStop → Option (List Step)
  | 0, stop => if stop.node = stationA then some [] else none
  | fuel + 1, stop =>
      if stop.node = stationA then some []
      else
        match alookup prev stop with
        | none => none
        | some p =>
            match stop.edge with
            | none => none
            | some r =>
                match derefEdge net r with
                | none => none
                | some e =>
                    match reconstruct net prev stationA fuel p with
                    | none => none
                    | some steps =>
                        some (⟨p.node, stop.node, e.routeLineId, e.routeId,
                               e.travelTime⟩ :: steps)

/-- The initial Dijkstra state: `dist[(A, null)] = 0`, one queue entry. -/
def initState (stationA : String) : DijkstraState :=
  ⟨[(⟨stationA, none⟩, 0)], [], [(⟨stationA, none⟩, 0)]⟩

/-- `TransportNetwork::GetFastestTravelRoute`, fuel-indexed (`none` only when
the fuel is insufficient). -/
def GetFastestTravelRoute (fuel : Nat) (net : TransportNetwork)
    (stationAId stationBId : String) : Option TravelRoute :=
  match GetStation net stationAId, GetStation net stationBId with
  | some _, some _ =>
      if stationAId = stationBId then
        some ⟨stationAId, stationAId, 0, [⟨stationAId, stationAId, "", "", 0⟩]⟩
      else
        match dijkstraLoop net stationBId [] fuel (initState stationAId) with
        | none => none
        | some st =>
            let pathsToB := st.dist.filter (fun p => p.1.node = stationBId)
            match selectMin pathsToB with
            | none => some ⟨stationAId, stationBId, 0, []⟩
            | some (stopB, dB) =>
                match reconstruct net st.prev stationAId fuel stopB with
                | none => none
                | some steps => some ⟨stationAId, stationBId, dB, steps.reverse⟩
  | _, _ => some ⟨"", "", 0, []⟩

/-! ## Quiet route (spec-modelled)

`TransportNetwork::GetQuietTravelRoute` is declared in
`inc/network-monitor/transport-network.h` but its definition (together with
the internal `GetFastestTravelRoutes`, `GetPathCrowding` and the
exclusion-aware search) is not part of the sources under `src/`.  The
functions below are therefore modelled from the spec (§4.4.2). -/

/-- Modelled from the spec: the path-assembly loop at the `PathStop` level,
used to collect the interior `PathStop`s of a found path (the source's
internal `Path` type); the concrete step-emitting loop is `reconstruct`. -/
def reconstructStops (prev : List (PathStop × PathStop)) (stationA : String) :
    Nat → PathStop → Option (List PathStop)
  | 0, stop => if stop.node = stationA then some [stop] else none
  | fuel + 1, stop =>
      if stop.node = stationA then some [stop]
      else
        match alookup prev stop with
        | none => none
        | some p =>
            match reconstructStops prev stationA fuel p with
            | none => none
            | some chain => some (stop :: chain)

/-- Modelled from the spec: one fastest-route search with a set of excluded
`PathStop`s (the header's internal `GetFastestTravelRoute` overload, missing
from `src/`); `none` when the search yields no candidate. -/
def fastestAlt (fuel : Nat) (net : TransportNetwork) (stationA stationB : String)
    (excluded : List PathStop) : Option TravelRoute :=
  match dijkstraLoop net stationB excluded fuel (initState stationA) with
  | none => none
  | some st =>
      match selectMin (st.dist.filter (fun p => p.1.node = stationB)) with
      | none => none
      | some (stopB, dB) =>
          match reconstruct net st.prev stationA fuel stopB with
          | none => none
          | some steps => some ⟨stationA, stationB, dB, steps.reverse⟩

/-- Modelled from the spec (§4.4.2 step 3, glossary): the crowding of a path
is the sum over its interior stations of `max(0, passenger_count)`; origin
and destination are excluded. -/
def crowding (net : TransportNetwork) (r : TravelRoute) : Nat :=
  (r.steps.dropLast.map (fun s =>
    match GetPassengerCount net s.endStationId with
    | some c => c.toNat
    | none => 0)).sum

/-- Modelled from the spec (§4.4.2 steps 4-5): the minimum-crowding
candidate, ties broken by lower travel time, then by list position. -/
def pickQuietest (net : TransportNetwork) : List TravelRoute → Option TravelRoute
  | [] => none
  | r :: rs =>
      some (rs.foldl (fun b y =>
        if crowding net y < crowding net b ∨
           (crowding net y = crowding net b ∧ y.totalTravelTime < b.totalTravelTime)
        then y else b) r)

/-- Modelled from the spec: `TransportNetwork::GetQuietTravelRoute`
(§4.4.2), whose implementation is missing from `src/`.  Steps: (1) fastest
route, returned unchanged when A = B or unreachable; (2) enumeration of
near-optimal paths by excluding interior `PathStop`s of the fastest path one
at a time, truncated to `maxNPaths`, filtered to
`best ≤ c ≤ best·(1 + maxSlowdownPc)`; (3-5) minimum-crowding selection among
those within `fastestCrowding·(1 − minQuietnessPc)`, falling back to the
fastest path.  The slowdown/quietness percentages (C++ `double`s) are
rationals. -/
def GetQuietTravelRoute (fuel : Nat) (net : TransportNetwork)
    (stationA stationB : String) (maxSlowdownPc minQuietnessPc : ℚ)
    (maxNPaths : Nat) : Option TravelRoute :=
  match GetStation net stationA, GetStation net stationB with
  | some _, some _ =>
      if stationA = stationB then
        some ⟨stationA, stationA, 0, [⟨stationA, stationA, "", "", 0⟩]⟩
      else
        match dijkstraLoop net stationB [] fuel (initState stationA) with
        | none => none
        | some st =>
            match selectMin (st.dist.filter (fun p => p.1.node = stationB)) with
            | none => some ⟨stationA, stationB, 0, []⟩
            | some (stopB, dB) =>
                match reconstruct net st.prev stationA fuel stopB,
                      reconstructStops st.prev stationA fuel stopB with
                | some steps, some chain =>
                    let fastest : TravelRoute := ⟨stationA, stationB, dB, steps.reverse⟩
                    let interior := (chain.drop 1).dropLast
                    let alts := interior.filterMap
                      (fun pst => fastestAlt fuel net stationA stationB [pst])
                    let candidates := ((fastest :: alts).dedup).take maxNPaths
                    let within := candidates.filter (fun r =>
                      decide (dB ≤ r.totalTravelTime) &&
                      decide ((r.totalTravelTime : ℚ) ≤ (dB : ℚ) * (1 + maxSlowdownPc)))
                    let fc := crowding net fastest
                    let qualifying := within.filter (fun r =>
                      decide ((crowding net r : ℚ) ≤ (fc : ℚ) * (1 - minQuietnessPc)))
                    match pickQuietest net qualifying with
                    | none => some fastest
                    | some r => some r
                | _, _ => none
  | _, _ => some ⟨"", "", 0, []⟩

/-! ## Association-list lemmas -/

theorem alookup_aupdate {α β : Type} [DecidableEq α] (l : List (α × β)) (k k' : α) (v : β) :
    alookup (aupdate l k v) k' = if k' = k then some v else alookup l k' := by
  induction l with
  | nil =>
      by_cases h : k' = k <;> simp [aupdate, alookup, h]
  | cons p l ih =>
      obtain ⟨k0, v0⟩ := p
      by_cases h0 : k = k0
      · subst h0
        by_cases h : k' = k <;> simp [aupdate, alookup, h]
      · by_cases h : k' = k0
        · subst h
          have hkk : ¬ k' = k := fun hc => h0 hc.symm
          simp [aupdate, alookup, h0, hkk]
        · simp [aupdate, alookup, h0, h, ih]

theorem alookup_mem {α β : Type} [DecidableEq α] {l : List (α × β)} {k : α} {v : β}
    (h : alookup l k = some v) : (k, v) ∈ l := by
  induction l with
  | nil => simp [alookup] at h
  | cons p l ih =>
      obtain ⟨k0, v0⟩ := p
      by_cases hk : k = k0
      · subst hk
        simp [alookup] at h
        simp [h]
      · simp [alookup, hk] at h
        exact List.mem_cons_of_mem _ (ih h)

theorem mem_alookup {α β : Type} [DecidableEq α] {l : List (α × β)} {k : α} {v : β}
    (hnd : (l.map Prod.fst).Nodup) (h : (k, v) ∈ l) : alookup l k = some v := by
  induction l with
  | nil => simp at h
  | cons p l ih =>
      obtain ⟨k0, v0⟩ := p
      simp only [List.map_cons, List.nodup_cons] at hnd
      rcases List.mem_cons.mp h with h1 | h1
      · cases h1
        simp [alookup]
      · have hk0 : k ≠ k0 := by
          intro hc
          subst hc
          exact hnd.1 (List.mem_map.mpr ⟨(k, v), h1, rfl⟩)
        simp only [alookup, if_neg hk0]
        exact ih hnd.2 h1

theorem aupdate_keys_nodup {α β : Type} [DecidableEq α] {l : List (α × β)} (k : α) (v : β)
    (hnd : (l.map Prod.fst).Nodup) : ((aupdate l k v).map Prod.fst).Nodup := by
  induction l with
  | nil => simp [aupdate]
  | cons p l ih =>
      obtain ⟨k0, v0⟩ := p
      simp only [List.map_cons, List.nodup_cons] at hnd
      by_cases h0 : k = k0
      · subst h0
        simpa [aupdate] using hnd
      · have hmem : k0 ∉ (aupdate l k v).map Prod.fst := by
          intro hc
          rcases List.mem_map.mp hc with ⟨⟨k1, v1⟩, hm, hk1⟩
          dsimp only at hk1
          subst hk1
          have h2 : alookup (aupdate l k v) k1 = some v1 := mem_alookup (ih hnd.2) hm
          rw [alookup_aupdate] at h2
          have hne : ¬ k1 = k := fun hc2 => h0 hc2.symm
          rw [if_neg hne] at h2
          exact hnd.1 (List.mem_map.mpr ⟨(k1, v1), alookup_mem h2, rfl⟩)
        simp only [aupdate, if_neg h0, List.map_cons, List.nodup_cons]
        exact ⟨hmem, ih hnd.2⟩

theorem mem_aupdate {α β : Type} [DecidableEq α] {l : List (α × β)} {k k' : α} {v v' : β}
    (hnd : (l.map Prod.fst).Nodup)
    (h : (k', v') ∈ aupdate l k v) : (k' = k ∧ v' = v) ∨ ((k', v') ∈ l ∧ k' ≠ k) := by
  induction l with
  | nil =>
      simp [aupdate] at h
      exact Or.inl h
  | cons p l ih =>
      obtain ⟨k0, v0⟩ := p
      simp only [List.map_cons, List.nodup_cons] at hnd
      by_cases h0 : k = k0
      · subst h0
        simp only [aupdate, if_pos rfl] at h
        rcases List.mem_cons.mp h with h1 | h1
        · cases h1
          exact Or.inl ⟨rfl, rfl⟩
        · by_cases hk : k' = k
          · subst hk
            exact absurd (List.mem_map.mpr ⟨(k', v'), h1, rfl⟩) hnd.1
          · exact Or.inr ⟨List.mem_cons_of_mem _ h1, hk⟩
      · simp only [aupdate, if_neg h0] at h
        rcases List.mem_cons.mp h with h1 | h1
        · cases h1
          exact Or.inr ⟨List.mem_cons_self _ _, fun hc => h0 hc.symm⟩
        · rcases ih hnd.2 h1 with h2 | h2
          · exact Or.inl h2
          · exact Or.inr ⟨List.mem_cons_of_mem _ h2.1, h2.2⟩

theorem mem_aupdate_of_mem {α β : Type} [DecidableEq α] {l : List (α × β)} {k k' : α}
    {v v' : β} (hne : k' ≠ k) (h : (k', v') ∈ l) : (k', v') ∈ aupdate l k v := by
  induction l with
  | nil => simp at h
  | cons p l ih =>
      obtain ⟨k0, v0⟩ := p
      by_cases h0 : k = k0
      · subst h0
        simp only [aupdate, if_pos rfl]
        rcases List.mem_cons.mp h with h1 | h1
        · cases h1
          exact absurd rfl hne
        · exact List.mem_cons_of_mem _ h1
      · simp only [aupdate, if_neg h0]
        rcases List.mem_cons.mp h with h1 | h1
        · cases h1
          exact List.mem_cons_self _ _
        · exact List.mem_cons_of_mem _ (ih h1)

/-! ## Concrete example networks (used by witnesses and counterexamples) -/

/-- Two stations `A`, `B`, no lines, no edges. -/
def exNetAB : TransportNetwork :=
  (AddStation ⟨"B", "B"⟩ (AddStation ⟨"A", "A"⟩ emptyNetwork).2).2

/-- A line whose second route repeats the id of the first: `AddLine` rejects it. -/
def exBadLine : Line :=
  ⟨"L", "L", [⟨"R1", "d", "L", "A", "B", ["A", "B"]⟩,
              ⟨"R1", "d", "L", "A", "B", ["A", "B"]⟩]⟩

/-- Linear network `A - B - C` on one route with travel times 2 and 3. -/
def exNetABC : TransportNetwork :=
  (SetTravelTime "B" "C" 3 (SetTravelTime "A" "B" 2
    (AddLine ⟨"L", "L", [⟨"R", "d", "L", "A", "C", ["A", "B", "C"]⟩]⟩
      (AddStation ⟨"C", "C"⟩ (AddStation ⟨"B", "B"⟩
        (AddStation ⟨"A", "A"⟩ emptyNetwork).2).2).2).2).2).2

/-- Two parallel two-hop connections `A-X-B` (line `L1`) and `A-Y-B` (line
`L2`), all hops of time 2, with 10 passengers recorded at `Y`. -/
def exNetQuiet : TransportNetwork :=
  (List.range 10).foldl (fun n _ => (RecordPassengerEvent ⟨"Y", PEType.In, 0⟩ n).2)
    ((SetTravelTime "Y" "B" 2 (SetTravelTime "A" "Y" 2 (SetTravelTime "X" "B" 2
      (SetTravelTime "A" "X" 2
        ((AddLine ⟨"L2", "L2", [⟨"R2", "d", "L2", "A", "B", ["A", "Y", "B"]⟩]⟩
          (AddLine ⟨"L1", "L1", [⟨"R1", "d", "L1", "A", "B", ["A", "X", "B"]⟩]⟩
            (AddStation ⟨"Y", "Y"⟩ (AddStation ⟨"X", "X"⟩ (AddStation ⟨"B", "B"⟩
              (AddStation ⟨"A", "A"⟩ emptyNetwork).2).2).2).2).2).2)).2).2).2).2)

/-! ## C6: fastest route from a station to itself -/

/-- C6: for every network and every station `A` in it,
`GetFastestTravelRoute(A, A)` returns a `TravelRoute` with total travel time 0
and exactly one step `{A, A, empty line id, empty route id, 0}`. -/
theorem fastest_route_self (fuel : Nat) (net : TransportNetwork) (stationA : String)
    (h : GetStation net stationA ≠ none) :
    GetFastestTravelRoute fuel net stationA stationA =
      some ⟨stationA, stationA, 0, [⟨stationA, stationA, "", "", 0⟩]⟩ := by
  match hA : GetStation net stationA with
  | none => exact absurd hA h
  | some n => simp [GetFastestTravelRoute, hA]

/-- Witness for C6 on the concrete linear network. -/
theorem fastest_route_self_witness :
    GetStation exNetABC "A" ≠ none ∧
    GetFastestTravelRoute 50 exNetABC "A" "A" =
      some ⟨"A", "A", 0, [⟨"A", "A", "", "", 0⟩]⟩ :=
  ⟨by decide, fastest_route_self 50 exNetABC "A" (by decide)⟩

/-! ## C1: `AddLine` atomicity -/

/-- The station attributes other than the mutable edge list. -/
def stationSkeleton (n : GraphNode) : String × String × Int :=
  (n.id, n.name, n.passengerCount)

/-- Two networks hold the same stations (same ids, names, passenger counts);
their edge lists may differ. -/
def SameStations (net net' : TransportNetwork) : Prop :=
  ∀ stationId : String,
    (alookup net.stations stationId).map stationSkeleton =
      (alookup net'.stations stationId).map stationSkeleton

theorem addEdgeAt_lines (net : TransportNetwork) (a : String) (e : GraphEdge) :
    (addEdgeAt net a e).lines = net.lines := by
  cases h : alookup net.stations a <;> simp [addEdgeAt, h]

theorem addEdgeAt_same (net : TransportNetwork) (a : String) (e : GraphEdge) :
    SameStations net (addEdgeAt net a e) := by
  intro s
  unfold addEdgeAt
  cases h : alookup net.stations a with
  | none => rfl
  | some n =>
      dsimp only
      rw [alookup_aupdate]
      by_cases hs : s = a
      · subst hs
        rw [if_pos rfl, h]
        rfl
      · rw [if_neg hs]

theorem installEdges_lines (rk : Nat) (rid lid : String) :
    ∀ (stops : List String) (net : TransportNetwork),
    (installEdges rk rid lid stops net).lines = net.lines := by
  intro stops
  induction stops with
  | nil => intro net; rfl
  | cons a tail ih =>
      intro net
      cases tail with
      | nil => rfl
      | cons b rest =>
          show (installEdges rk rid lid (b :: rest) (addEdgeAt net a ⟨rk, rid, lid, b, 0⟩)).lines = net.lines
          rw [ih, addEdgeAt_lines]

theorem installEdges_same (rk : Nat) (rid lid : String) :
    ∀ (stops : List String) (net : TransportNetwork),
    SameStations net (installEdges rk rid lid stops net) := by
  intro stops
  induction stops with
  | nil => intro net s; rfl
  | cons a tail ih =>
      intro net
      cases tail with
      | nil => intro s; rfl
      | cons b rest =>
          intro s
          show (alookup net.stations s).map stationSkeleton =
            (alookup (installEdges rk rid lid (b :: rest)
              (addEdgeAt net a ⟨rk, rid, lid, b, 0⟩)).stations s).map stationSkeleton
          rw [addEdgeAt_same net a ⟨rk, rid, lid, b, 0⟩ s]
          exact ih (addEdgeAt net a ⟨rk, rid, lid, b, 0⟩) s

theorem addRouteToLine_preserves {route : Route} {li li' : LineInternal}
    {net net' : TransportNetwork}
    (h : AddRouteToLine route li net = some (li', net')) :
    net'.lines = net.lines ∧ SameStations net net' := by
  unfold AddRouteToLine at h
  by_cases h1 : (alookup li.routes route.id).isSome
  · rw [if_pos h1] at h
    exact absurd h (by simp)
  · rw [if_neg h1] at h
    by_cases h2 : !stopsExist net route.stops
    · rw [if_pos h2] at h
      exact absurd h (by simp)
    · rw [if_neg h2] at h
      simp only [Option.some.injEq, Prod.mk.injEq] at h
      obtain ⟨-, h4⟩ := h
      subst h4
      refine ⟨installEdges_lines net.nextRouteKey route.id li.id route.stops net, fun s => ?_⟩
      exact installEdges_same net.nextRouteKey route.id li.id route.stops net s

theorem addRoutesAux_preserves :
    ∀ (rs : List Route) (li : LineInternal) (net : TransportNetwork),
    (addRoutesAux rs li net).2.lines = net.lines ∧
      SameStations net (addRoutesAux rs li net).2 := by
  intro rs
  induction rs with
  | nil => intro li net; exact ⟨rfl, fun s => rfl⟩
  | cons r rest ih =>
      intro li net
      cases h : AddRouteToLine r li net with
      | none =>
          simp only [addRoutesAux, h]
          exact ⟨trivial, fun s => rfl⟩
      | some p =>
          obtain ⟨li', net'⟩ := p
          simp only [addRoutesAux, h]
          obtain ⟨hl, hs⟩ := addRouteToLine_preserves h
          obtain ⟨hl2, hs2⟩ := ih li' net'
          exact ⟨by rw [hl2, hl], fun s => (hs s).trans (hs2 s)⟩

/-- C1 (amended): when `AddLine` fails it returns `false`, no line is
registered (the line map is exactly as before the call), and the stations
themselves (ids, names, passenger counts) are untouched; only edges installed
for routes that were validated before the failing route may remain. -/
theorem addLine_failure_no_registration (line : Line) (net : TransportNetwork)
    (h : (AddLine line net).1 = false) :
    (AddLine line net).2.lines = net.lines ∧
      SameStations net (AddLine line net).2 := by
  unfold AddLine at h ⊢
  cases hL : GetLine net line.id with
  | some li => exact ⟨rfl, fun s => rfl⟩
  | none =>
      rw [hL] at h
      cases hA : addRoutesAux line.routes ⟨line.id, line.name, []⟩ net with
      | mk res net' =>
          rw [hA] at h
          cases res with
          | none =>
              have h2 := addRoutesAux_preserves line.routes ⟨line.id, line.name, []⟩ net
              rw [hA] at h2
              exact h2
          | some li => simp at h

/-- Witness for the amended C1 on the concrete duplicate-route line. -/
theorem addLine_failure_witness :
    (AddLine exBadLine exNetAB).1 = false ∧
    (AddLine exBadLine exNetAB).2.lines = exNetAB.lines ∧
      SameStations exNetAB (AddLine exBadLine exNetAB).2 :=
  ⟨by decide, addLine_failure_no_registration exBadLine exNetAB (by decide)⟩

/-- C1 counterexample: a failing `AddLine` (duplicate route id within the
line) nevertheless leaves the first route's edges visible to
`GetRoutesServingStation` — the addition is not atomic as claimed. -/
theorem addLine_not_atomic_cex :
    (AddLine exBadLine exNetAB).1 = false ∧
    GetRoutesServingStation exNetAB "A" = [] ∧
    GetRoutesServingStation (AddLine exBadLine exNetAB).2 "A" = ["R1"] ∧
    GetTravelTime (AddLine exBadLine exNetAB).2 "A" "B" = 0 ∧
    (edgesOf (AddLine exBadLine exNetAB).2 "A").length = 1 := by
  decide

/-! ## C8: passenger counting -/

/-- Apply a sequence of passenger events in order. -/
def runEvents (events : List PassengerEvent) (net : TransportNetwork) :
    TransportNetwork :=
  events.foldl (fun n ev => (RecordPassengerEvent ev n).2) net

/-- The number of events of a given type in a sequence. -/
def countEvents (t : PEType) (events : List PassengerEvent) : Nat :=
  (events.filter (fun ev => decide (ev.type = t))).length

theorem countEvents_cons (t : PEType) (ev : PassengerEvent)
    (rest : List PassengerEvent) :
    countEvents t (ev :: rest) =
      (if ev.type = t then 1 else 0) + countEvents t rest := by
  by_cases h : ev.type = t <;>
    simp [countEvents, List.filter_cons, h, Nat.add_comm]

theorem runEvents_count (events : List PassengerEvent) :
    ∀ (net : TransportNetwork) (S : String) (n : GraphNode),
    alookup net.stations S = some n →
    (∀ ev ∈ events, ev.stationId = S) →
    GetPassengerCount (runEvents events net) S =
      some (n.passengerCount + (countEvents PEType.In events : Int)
            - (countEvents PEType.Out events : Int)) := by
  induction events with
  | nil =>
      intro net S n hS _
      simp [runEvents, GetPassengerCount, GetStation, hS, countEvents]
  | cons ev rest ih =>
      intro net S n hS hAll
      have hev : ev.stationId = S := hAll ev (List.mem_cons_self _ _)
      have hrest : ∀ e ∈ rest, e.stationId = S :=
        fun e he => hAll e (List.mem_cons_of_mem _ he)
      have hrun : runEvents (ev :: rest) net =
          runEvents rest (RecordPassengerEvent ev net).2 := rfl
      rw [hrun]
      unfold RecordPassengerEvent
      rw [hev, hS]
      cases ht : ev.type with
      | In =>
          dsimp only
          have hlook : alookup (aupdate net.stations S
              ⟨n.id, n.name, n.passengerCount + 1, n.edges⟩) S =
              some ⟨n.id, n.name, n.passengerCount + 1, n.edges⟩ := by
            rw [alookup_aupdate, if_pos rfl]
          have h2 := ih
            ⟨aupdate net.stations S ⟨n.id, n.name, n.passengerCount + 1, n.edges⟩,
             net.lines, net.nextRouteKey⟩ S
            ⟨n.id, n.name, n.passengerCount + 1, n.edges⟩ hlook hrest
          rw [h2]
          rw [countEvents_cons, countEvents_cons, ht]
          simp only [if_pos rfl, reduceCtorEq, if_neg]
          congr 1
          push_cast
          ring
      | Out =>
          dsimp only
          have hlook : alookup (aupdate net.stations S
              ⟨n.id, n.name, n.passengerCount - 1, n.edges⟩) S =
              some ⟨n.id, n.name, n.passengerCount - 1, n.edges⟩ := by
            rw [alookup_aupdate, if_pos rfl]
          have h2 := ih
            ⟨aupdate net.stations S ⟨n.id, n.name, n.passengerCount - 1, n.edges⟩,
             net.lines, net.nextRouteKey⟩ S
            ⟨n.id, n.name, n.passengerCount - 1, n.edges⟩ hlook hrest
          rw [h2]
          rw [countEvents_cons, countEvents_cons, ht]
          simp only [if_pos rfl, reduceCtorEq, if_neg]
          congr 1
          push_cast
          ring

/-- C8: for a station with passenger count 0, after any sequence of
successful `RecordPassengerEvent` calls at that station containing `N` events
of type `In` and `M` of type `Out`, in any order, `GetPassengerCount` returns
`N - M` (a possibly negative signed value). -/
theorem passenger_count_in_minus_out (net : TransportNetwork) (S : String)
    (n : GraphNode) (events : List PassengerEvent)
    (hS : GetStation net S = some n) (h0 : n.passengerCount = 0)
    (hAll : ∀ ev ∈ events, ev.stationId = S) :
    GetPassengerCount (runEvents events net) S =
      some ((countEvents PEType.In events : Int)
            - (countEvents PEType.Out events : Int)) := by
  have h := runEvents_count events net S n hS hAll
  rw [h0] at h
  simpa using h

/-- Witness for C8: three `In` and five `Out` events at station `A` of the
two-station network give a count of `-2`. -/
theorem passenger_count_witness :
    GetPassengerCount
      (runEvents (List.replicate 3 ⟨"A", PEType.In, 0⟩ ++
                  List.replicate 5 ⟨"A", PEType.Out, 0⟩) exNetAB) "A" =
      some ((countEvents PEType.In (List.replicate 3 ⟨"A", PEType.In, 0⟩ ++
                  List.replicate 5 ⟨"A", PEType.Out, 0⟩) : Int)
            - (countEvents PEType.Out (List.replicate 3 ⟨"A", PEType.In, 0⟩ ++
                  List.replicate 5 ⟨"A", PEType.Out, 0⟩) : Int)) :=
  passenger_count_in_minus_out exNetAB "A" ⟨"A", "A", 0, []⟩ _
    (by decide) (by decide) (by decide)

/-! ## C5: travel-time symmetry -/

theorem setEdgeTimes_time {n : GraphNode} {target : String} {t : Nat} {e : GraphEdge}
    (he : e ∈ (setEdgeTimes n target t).1.edges) (ht : e.nextStop = target) :
    e.travelTime = t := by
  simp only [setEdgeTimes] at he
  rcases List.mem_map.mp he with ⟨e0, -, heq⟩
  by_cases h0 : e0.nextStop = target
  · rw [if_pos h0] at heq
    rw [← heq]
  · rw [if_neg h0] at heq
    rw [← heq] at ht
    exact absurd ht h0

theorem setEdgeTimes_any (n : GraphNode) (target : String) (t : Nat) (target' : String) :
    (setEdgeTimes n target t).1.edges.any (fun e => e.nextStop = target') =
      n.edges.any (fun e => e.nextStop = target') := by
  simp only [setEdgeTimes, List.any_map]
  congr 1
  funext e
  by_cases h0 : e.nextStop = target
  · simp [h0]
  · simp [h0]

theorem find?_time_of_all {l : List GraphEdge} {target : String} {t : Nat}
    (hall : ∀ e ∈ l, e.nextStop = target → e.travelTime = t) {e : GraphEdge}
    (h : l.find? (fun e => e.nextStop = target) = some e) : e.travelTime = t := by
  have h1 := List.find?_some h
  have h2 := List.mem_of_find?_eq_some h
  exact hall e h2 (by simpa using h1)

theorem find?_isSome_of_any {l : List GraphEdge} {target : String}
    (h : l.any (fun e => e.nextStop = target) = true) :
    ∃ e, l.find? (fun e => e.nextStop = target) = some e := by
  rcases List.any_eq_true.mp h with ⟨x, hx, hpx⟩
  have h2 : (l.find? (fun e => e.nextStop = target)).isSome := by
    rw [List.find?_isSome]
    exact ⟨x, hx, hpx⟩
  exact Option.isSome_iff_exists.mp h2

theorem SetTravelTime_ne {net : TransportNetwork} {A B : String} {t : Nat}
    {nA nB : GraphNode} (hA : alookup net.stations A = some nA)
    (hB : alookup net.stations B = some nB) (hBA : B ≠ A) :
    SetTravelTime A B t net =
      ((nA.edges.any (fun e => e.nextStop = B) || nB.edges.any (fun e => e.nextStop = A)),
       ⟨aupdate (aupdate net.stations A (setEdgeTimes nA B t).1) B (setEdgeTimes nB A t).1,
        net.lines, net.nextRouteKey⟩) := by
  unfold SetTravelTime GetStation
  rw [hA, hB]
  dsimp only
  rw [alookup_aupdate, if_neg hBA, hB]
  dsimp only [setEdgeTimes]

theorem SetTravelTime_eq {net : TransportNetwork} {A : String} {t : Nat}
    {nA : GraphNode} (hA : alookup net.stations A = some nA) :
    SetTravelTime A A t net =
      ((nA.edges.any (fun e => e.nextStop = A) ||
          (setEdgeTimes nA A t).1.edges.any (fun e => e.nextStop = A)),
       ⟨aupdate (aupdate net.stations A (setEdgeTimes nA A t).1) A
          (setEdgeTimes (setEdgeTimes nA A t).1 A t).1,
        net.lines, net.nextRouteKey⟩) := by
  unfold SetTravelTime GetStation
  rw [hA]
  dsimp only
  rw [alookup_aupdate, if_pos rfl]
  dsimp only [setEdgeTimes]

theorem GetTravelTime_lookup {net : TransportNetwork} {A B : String}
    {nA nB : GraphNode} (hA : alookup net.stations A = some nA)
    (hB : alookup net.stations B = some nB) :
    GetTravelTime net A B =
      (match nA.edges.find? (fun e => e.nextStop = B) with
       | some e => e.travelTime
       | none =>
           match nB.edges.find? (fun e => e.nextStop = A) with
           | some e => e.travelTime
           | none => 0) := by
  unfold GetTravelTime GetStation
  rw [hA, hB]

theorem edgesOf_lookup {net : TransportNetwork} {A : String} {nA : GraphNode}
    (hA : alookup net.stations A = some nA) : edgesOf net A = nA.edges := by
  unfold edgesOf GetStation
  rw [hA]

/-- All edges of `(setEdgeTimes n target t).1` pointing at `target` carry `t`,
with the `find?` consequences used below. -/
theorem setEdgeTimes_all (n : GraphNode) (target : String) (t : Nat) :
    ∀ e ∈ (setEdgeTimes n target t).1.edges, e.nextStop = target → e.travelTime = t :=
  fun _ he ht => setEdgeTimes_time he ht

/-- C5: immediately after any successful `SetTravelTime(A, B, t)`, every
directed edge between `A` and `B` in either direction carries time `t`, and
`GetTravelTime(A, B) = GetTravelTime(B, A) = t`; moreover `SetTravelTime`
returns `true` only if at least one edge between `A` and `B` (in either
direction) existed. -/
theorem set_travel_time_symmetric (net : TransportNetwork) (A B : String) (t : Nat)
    (h : (SetTravelTime A B t net).1 = true) :
    (∀ e ∈ edgesOf (SetTravelTime A B t net).2 A, e.nextStop = B → e.travelTime = t) ∧
    (∀ e ∈ edgesOf (SetTravelTime A B t net).2 B, e.nextStop = A → e.travelTime = t) ∧
    GetTravelTime (SetTravelTime A B t net).2 A B = t ∧
    GetTravelTime (SetTravelTime A B t net).2 B A = t ∧
    ((∃ e ∈ edgesOf net A, e.nextStop = B) ∨ (∃ e ∈ edgesOf net B, e.nextStop = A)) := by
  cases hA : alookup net.stations A with
  | none =>
      unfold SetTravelTime GetStation at h
      rw [hA] at h
      simp at h
  | some nA =>
      cases hB : alookup net.stations B with
      | none =>
          unfold SetTravelTime GetStation at h
          rw [hA, hB] at h
          cases halA : alookup net.stations A <;> simp [halA] at h
      | some nB =>
          by_cases hBA : B = A
          · subst hBA
            have hn : nA = nB := by
              rw [hA] at hB
              exact Option.some.inj hB
            subst hn
            rw [SetTravelTime_eq hA] at h ⊢
            dsimp only at h ⊢
            rw [setEdgeTimes_any, Bool.or_self] at h
            have hfin : alookup
                (aupdate (aupdate net.stations B (setEdgeTimes nA B t).1) B
                  (setEdgeTimes (setEdgeTimes nA B t).1 B t).1) B =
                some (setEdgeTimes (setEdgeTimes nA B t).1 B t).1 := by
              rw [alookup_aupdate, if_pos rfl]
            have hedges := @edgesOf_lookup ⟨aupdate (aupdate net.stations B
                (setEdgeTimes nA B t).1) B (setEdgeTimes (setEdgeTimes nA B t).1 B t).1,
                net.lines, net.nextRouteKey⟩ B _ hfin
            have hall := setEdgeTimes_all (setEdgeTimes nA B t).1 B t
            have hany : (setEdgeTimes (setEdgeTimes nA B t).1 B t).1.edges.any
                (fun e => e.nextStop = B) = true := by
              rw [setEdgeTimes_any, setEdgeTimes_any]
              exact h
            obtain ⟨e, hfind⟩ := find?_isSome_of_any hany
            refine ⟨?_, ?_, ?_, ?_, ?_⟩
            · rw [hedges]
              exact hall
            · rw [hedges]
              exact hall
            · rw [GetTravelTime_lookup hfin hfin, hfind]
              exact find?_time_of_all hall hfind
            · rw [GetTravelTime_lookup hfin hfin, hfind]
              exact find?_time_of_all hall hfind
            · left
              rw [edgesOf_lookup hA]
              rcases List.any_eq_true.mp h with ⟨x, hx, hpx⟩
              exact ⟨x, hx, by simpa using hpx⟩
          · rw [SetTravelTime_ne hA hB hBA] at h ⊢
            dsimp only at h ⊢
            have hAB : ¬ A = B := fun hc => hBA hc.symm
            have hfinA : alookup
                (aupdate (aupdate net.stations A (setEdgeTimes nA B t).1) B
                  (setEdgeTimes nB A t).1) A = some (setEdgeTimes nA B t).1 := by
              rw [alookup_aupdate, if_neg hAB, alookup_aupdate, if_pos rfl]
            have hfinB : alookup
                (aupdate (aupdate net.stations A (setEdgeTimes nA B t).1) B
                  (setEdgeTimes nB A t).1) B = some (setEdgeTimes nB A t).1 := by
              rw [alookup_aupdate, if_pos rfl]
            have hallA := setEdgeTimes_all nA B t
            have hallB := setEdgeTimes_all nB A t
            have hedgesA := @edgesOf_lookup ⟨aupdate (aupdate net.stations A
                (setEdgeTimes nA B t).1) B (setEdgeTimes nB A t).1,
                net.lines, net.nextRouteKey⟩ A _ hfinA
            have hedgesB := @edgesOf_lookup ⟨aupdate (aupdate net.stations A
                (setEdgeTimes nA B t).1) B (setEdgeTimes nB A t).1,
                net.lines, net.nextRouteKey⟩ B _ hfinB
            refine ⟨?_, ?_, ?_, ?_, ?_⟩
            · rw [hedgesA]
              exact hallA
            · rw [hedgesB]
              exact hallB
            · rw [GetTravelTime_lookup hfinA hfinB]
              cases hor : (nA.edges.any (fun e => e.nextStop = B)) with
              | true =>
                  have hany2 : (setEdgeTimes nA B t).1.edges.any
                      (fun e => e.nextStop = B) = true := by
                    rw [setEdgeTimes_any]; exact hor
                  obtain ⟨e, hfind⟩ := find?_isSome_of_any hany2
                  rw [hfind]
                  exact find?_time_of_all hallA hfind
              | false =>
                  have hor2 : nB.edges.any (fun e => e.nextStop = A) = true := by
                    rw [hor] at h
                    simpa using h
                  have hnone : (setEdgeTimes nA B t).1.edges.find?
                      (fun e => e.nextStop = B) = none := by
                    rw [List.find?_eq_none]
                    intro x hx hpx
                    have : (setEdgeTimes nA B t).1.edges.any
                        (fun e => e.nextStop = B) = true :=
                      List.any_eq_true.mpr ⟨x, hx, hpx⟩
                    rw [setEdgeTimes_any, hor] at this
                    exact Bool.false_ne_true this
                  rw [hnone]
                  have hany2 : (setEdgeTimes nB A t).1.edges.any
                      (fun e => e.nextStop = A) = true := by
                    rw [setEdgeTimes_any]; exact hor2
                  obtain ⟨e, hfind⟩ := find?_isSome_of_any hany2
                  rw [hfind]
                  exact find?_time_of_all hallB hfind
            · rw [GetTravelTime_lookup hfinB hfinA]
              cases hor : (nB.edges.any (fun e => e.nextStop = A)) with
              | true =>
                  have hany2 : (setEdgeTimes nB A t).1.edges.any
                      (fun e => e.nextStop = A) = true := by
                    rw [setEdgeTimes_any]; exact hor
                  obtain ⟨e, hfind⟩ := find?_isSome_of_any hany2
                  rw [hfind]
                  exact find?_time_of_all hallB hfind
              | false =>
                  have hor2 : nA.edges.any (fun e => e.nextStop = B) = true := by
                    rw [hor] at h
                    simpa using h
                  have hnone : (setEdgeTimes nB A t).1.edges.find?
                      (fun e => e.nextStop = A) = none := by
                    rw [List.find?_eq_none]
                    intro x hx hpx
                    have : (setEdgeTimes nB A t).1.edges.any
                        (fun e => e.nextStop = A) = true :=
                      List.any_eq_true.mpr ⟨x, hx, hpx⟩
                    rw [setEdgeTimes_any, hor] at this
                    exact Bool.false_ne_true this
                  rw [hnone]
                  have hany2 : (setEdgeTimes nA B t).1.edges.any
                      (fun e => e.nextStop = B) = true := by
                    rw [setEdgeTimes_any]; exact hor2
                  obtain ⟨e, hfind⟩ := find?_isSome_of_any hany2
                  rw [hfind]
                  exact find?_time_of_all hallA hfind
            · rcases Bool.or_eq_true_iff.mp h with h1 | h1
              · left
                rw [edgesOf_lookup hA]
                rcases List.any_eq_true.mp h1 with ⟨x, hx, hpx⟩
                exact ⟨x, hx, by simpa using hpx⟩
              · right
                rw [edgesOf_lookup hB]
                rcases List.any_eq_true.mp h1 with ⟨x, hx, hpx⟩
                exact ⟨x, hx, by simpa using hpx⟩

/-- Witness for C5 on the linear network: setting `A - B` to 7. -/
theorem set_travel_time_witness :
    (SetTravelTime "A" "B" 7 exNetABC).1 = true ∧
    GetTravelTime (SetTravelTime "A" "B" 7 exNetABC).2 "A" "B" = 7 ∧
    GetTravelTime (SetTravelTime "A" "B" 7 exNetABC).2 "B" "A" = 7 :=
  ⟨by decide,
   (set_travel_time_symmetric exNetABC "A" "B" 7 (by decide)).2.2.1,
   (set_travel_time_symmetric exNetABC "A" "B" 7 (by decide)).2.2.2.1⟩

/-! ## C9: routes serving a station -/

/-- C9: for every station `S` of the network, `GetRoutesServingStation(S)`
returns exactly the union of (a) the route ids of the outgoing edges at `S`
and (b) the route ids of the routes (over all lines) whose terminal stop is
`S` — stated as a membership equivalence. -/
theorem routes_serving_union (net : TransportNetwork) (S : String) (n : GraphNode)
    (hS : GetStation net S = some n) (rid : String) :
    rid ∈ GetRoutesServingStation net S ↔
      ((∃ e ∈ n.edges, e.routeId = rid) ∨
       (∃ lp ∈ net.lines, ∃ rp ∈ lp.2.routes,
          rp.2.stops.getLast? = some S ∧ rp.2.id = rid)) := by
  unfold GetRoutesServingStation
  rw [hS]
  constructor
  · intro h
    rcases List.mem_append.mp h with h1 | h1
    · left
      rcases List.mem_map.mp h1 with ⟨e, he, heq⟩
      exact ⟨e, he, heq⟩
    · right
      rcases List.mem_flatMap.mp h1 with ⟨lp, hlp, hmem⟩
      rcases List.mem_filterMap.mp hmem with ⟨rp, hrp, heq⟩
      by_cases hc : rp.2.stops.getLast? = some S
      · rw [if_pos hc] at heq
        exact ⟨lp, hlp, rp, hrp, hc, Option.some.inj heq⟩
      · rw [if_neg hc] at heq
        exact absurd heq (by simp)
  · intro h
    rcases h with ⟨e, he, heq⟩ | ⟨lp, hlp, rp, hrp, hlast, hid⟩
    · exact List.mem_append.mpr (Or.inl (List.mem_map.mpr ⟨e, he, heq⟩))
    · refine List.mem_append.mpr (Or.inr ?_)
      refine List.mem_flatMap.mpr ⟨lp, hlp, ?_⟩
      refine List.mem_filterMap.mpr ⟨rp, hrp, ?_⟩
      rw [if_pos hlast, hid]

/-- Witness for C9 at the terminal-only station `C` of the linear network:
route `R` ends at `C` and `C` has no outgoing edges, yet `R` serves `C`. -/
theorem routes_serving_witness :
    (GetRoutesServingStation exNetABC "C" = ["R"]) ∧
    ("R" ∈ GetRoutesServingStation exNetABC "C" ↔
      ((∃ e ∈ (⟨"C", "C", 0, []⟩ : GraphNode).edges, e.routeId = "R") ∨
       (∃ lp ∈ exNetABC.lines, ∃ rp ∈ lp.2.routes,
          rp.2.stops.getLast? = some "C" ∧ rp.2.id = "R"))) :=
  ⟨by decide, routes_serving_union exNetABC "C" ⟨"C", "C", 0, []⟩ (by decide) "R"⟩

/-! ## C2: topology loading and the travel-times section -/

/-- Everything about a station node except the mutable edge travel times. -/
def nodeShape (n : GraphNode) :
    String × String × Int × List (Nat × String × String × String) :=
  (n.id, n.name, n.passengerCount,
   n.edges.map (fun e => (e.routeKey, e.routeId, e.routeLineId, e.nextStop)))

/-- Two networks agree on everything except edge travel times. -/
def SameStructure (net net' : TransportNetwork) : Prop :=
  net'.lines = net.lines ∧ net'.nextRouteKey = net.nextRouteKey ∧
  ∀ s : String,
    (alookup net'.stations s).map nodeShape = (alookup net.stations s).map nodeShape

theorem sameStructure_refl (net : TransportNetwork) : SameStructure net net :=
  ⟨rfl, rfl, fun _ => rfl⟩

theorem sameStructure_trans {a b c : TransportNetwork}
    (h1 : SameStructure a b) (h2 : SameStructure b c) : SameStructure a c :=
  ⟨h2.1.trans h1.1, h2.2.1.trans h1.2.1, fun s => (h2.2.2 s).trans (h1.2.2 s)⟩

theorem nodeShape_setEdgeTimes (n : GraphNode) (target : String) (t : Nat) :
    nodeShape (setEdgeTimes n target t).1 = nodeShape n := by
  simp only [nodeShape, setEdgeTimes, List.map_map, Prod.mk.injEq, true_and,
    and_true, eq_self_iff_true]
  apply List.map_congr_left
  intro e _
  by_cases h0 : e.nextStop = target
  · simp [h0]
  · simp [h0]

theorem setTravelTime_structure (A B : String) (t : Nat) (net : TransportNetwork) :
    SameStructure net (SetTravelTime A B t net).2 := by
  cases hA : alookup net.stations A with
  | none =>
      unfold SetTravelTime GetStation
      rw [hA]
      exact sameStructure_refl net
  | some nA =>
      cases hB : alookup net.stations B with
      | none =>
          unfold SetTravelTime GetStation
          rw [hA, hB]
          exact sameStructure_refl net
      | some nB =>
          by_cases hBA : B = A
          · subst hBA
            have hn : nA = nB := by
              rw [hA] at hB
              exact Option.some.inj hB
            subst hn
            rw [SetTravelTime_eq hA]
            refine ⟨rfl, rfl, fun s => ?_⟩
            dsimp only
            rw [alookup_aupdate]
            by_cases hs : s = B
            · subst hs
              rw [if_pos rfl, hA]
              simp [nodeShape_setEdgeTimes]
            · rw [if_neg hs, alookup_aupdate, if_neg hs]
          · rw [SetTravelTime_ne hA hB hBA]
            refine ⟨rfl, rfl, fun s => ?_⟩
            dsimp only
            rw [alookup_aupdate]
            by_cases hsB : s = B
            · subst hsB
              rw [if_pos rfl, hB]
              simp [nodeShape_setEdgeTimes]
            · rw [if_neg hsB, alookup_aupdate]
              by_cases hsA : s = A
              · subst hsA
                rw [if_pos rfl, hA]
                simp [nodeShape_setEdgeTimes]
              · rw [if_neg hsA]

theorem applyTravelTimes_structure :
    ∀ (ts : List TravelTimeJson) (net : TransportNetwork),
    SameStructure net (applyTravelTimes ts net).2 := by
  intro ts
  induction ts with
  | nil => intro net; exact sameStructure_refl net
  | cons t rest ih =>
      intro net
      have h1 := setTravelTime_structure t.start_station_id t.end_station_id
        t.travel_time net
      have h2 := ih (SetTravelTime t.start_station_id t.end_station_id
        t.travel_time net).2
      simpa [applyTravelTimes] using sameStructure_trans h1 h2

/-- C2 (amended): when the `travel_times` section is present, `FromJson` does
not throw past a successful structural load: it returns the soft-failure
boolean of the travel-time loop (false as soon as one `SetTravelTime` entry
fails) while the stations, lines, routes and edges stay exactly as loaded
(only edge travel times change; failed entries touch nothing, leaving those
times at the default 0).  A missing `travel_times` section, by contrast,
throws — see the counterexample. -/
theorem fromJson_soft_failure (src : TopologyJson) (ts : List TravelTimeJson)
    (net2 : TransportNetwork) (hts : src.travel_times = some ts)
    (hload : loadStructure src = Except.ok net2) :
    FromJson src = Except.ok (applyTravelTimes ts net2) ∧
    SameStructure net2 (applyTravelTimes ts net2).2 := by
  constructor
  · unfold FromJson
    rw [hload, hts]
  · exact applyTravelTimes_structure ts net2

/-- The stations-and-lines part used by the C2 examples. -/
def exTopoStations : List StationJson := [⟨"A", "SA"⟩, ⟨"B", "SB"⟩]

/-- Topology whose `travel_times` key is absent. -/
def exTopoNoTT : TopologyJson := ⟨exTopoStations, [], none⟩

/-- Topology with a travel-time entry between non-adjacent stations. -/
def exTopoSoft : TopologyJson := ⟨exTopoStations, [], some [⟨"A", "B", 5⟩]⟩

/-- C2 counterexample: the stations and lines sections load successfully, the
`travel_times` key is merely absent, and `FromJson` throws
(`json::at` on the missing key) instead of returning the soft failure
`false`. -/
theorem fromJson_missing_travel_times_cex :
    loadStructure exTopoNoTT =
      Except.ok ⟨[("A", ⟨"A", "SA", 0, []⟩), ("B", ⟨"B", "SB", 0, []⟩)], [], 0⟩ ∧
    FromJson exTopoNoTT =
      Except.error "[json.exception.out_of_range.403] key travel_times not found" := by
  constructor
  · rfl
  · rfl

/-- Witness for the amended C2: a present `travel_times` section whose single
entry fails (non-adjacent stations) yields `ok (false, _)` without a throw. -/
theorem fromJson_soft_failure_witness :
    FromJson exTopoSoft =
      Except.ok (applyTravelTimes [⟨"A", "B", 5⟩]
        ⟨[("A", ⟨"A", "SA", 0, []⟩), ("B", ⟨"B", "SB", 0, []⟩)], [], 0⟩) ∧
    SameStructure ⟨[("A", ⟨"A", "SA", 0, []⟩), ("B", ⟨"B", "SB", 0, []⟩)], [], 0⟩
      (applyTravelTimes [⟨"A", "B", 5⟩]
        ⟨[("A", ⟨"A", "SA", 0, []⟩), ("B", ⟨"B", "SB", 0, []⟩)], [], 0⟩).2 ∧
    (applyTravelTimes [⟨"A", "B", 5⟩]
        ⟨[("A", ⟨"A", "SA", 0, []⟩), ("B", ⟨"B", "SB", 0, []⟩)], [], 0⟩).1 = false :=
  ⟨(fromJson_soft_failure exTopoSoft [⟨"A", "B", 5⟩] _ (by rfl) (by rfl)).1,
   (fromJson_soft_failure exTopoSoft [⟨"A", "B", 5⟩] _ (by rfl) (by rfl)).2,
   by decide⟩

/-! ## C7: cumulative travel time along a route -/

theorem routeWalk_noB (net : TransportNetwork) (rk : Nat) (A B : String) :
    ∀ (l : List String) (f : Bool) (acc : Nat), B ∉ l →
    routeWalk net rk A B l f acc = 0 := by
  intro l
  induction l with
  | nil => intro f acc _; rfl
  | cons s rest ih =>
      intro f acc hB
      have hsB : ¬ s = B := fun hc => hB (hc ▸ List.mem_cons_self _ _)
      have hrest : B ∉ rest := fun hc => hB (List.mem_cons_of_mem _ hc)
      simp only [routeWalk, if_neg hsB]
      by_cases hf : (f || decide (s = A)) = true
      · rw [if_pos hf]
        cases hfind : findEdgeForRoute net s rk with
        | none => rfl
        | some e => exact ih _ _ hrest
      · rw [if_neg hf]
        exact ih _ _ hrest

theorem routeWalk_pre (net : TransportNetwork) (rk : Nat) (A B : String) :
    ∀ (pre rest : List String) (acc : Nat), A ∉ pre → B ∉ pre →
    routeWalk net rk A B (pre ++ rest) false acc =
      routeWalk net rk A B rest false acc := by
  intro pre
  induction pre with
  | nil => intro rest acc _ _; rfl
  | cons s pre' ih =>
      intro rest acc hA hB
      have hsA : ¬ s = A := fun hc => hA (hc ▸ List.mem_cons_self _ _)
      have hsB : ¬ s = B := fun hc => hB (hc ▸ List.mem_cons_self _ _)
      have hA' : A ∉ pre' := fun hc => hA (List.mem_cons_of_mem _ hc)
      have hB' : B ∉ pre' := fun hc => hB (List.mem_cons_of_mem _ hc)
      simp only [List.cons_append, routeWalk, if_neg hsB, Bool.false_or,
        decide_eq_true_eq, hsA, if_neg, decide_eq_false hsA]
      exact ih rest acc hA' hB'

/-- The travel time of the first edge for the route at a stop (0 when absent;
in that case the walk already returned 0). -/
def hopTime (net : TransportNetwork) (rk : Nat) (s : String) : Nat :=
  match findEdgeForRoute net s rk with
  | some e => e.travelTime
  | none => 0

theorem routeWalk_found (net : TransportNetwork) (rk : Nat) (A B : String) :
    ∀ (mid : List String) (post : List String) (acc : Nat), B ∉ mid →
    (∀ s ∈ mid, (findEdgeForRoute net s rk).isSome) →
    routeWalk net rk A B (mid ++ B :: post) true acc =
      acc + (mid.map (hopTime net rk)).sum := by
  intro mid
  induction mid with
  | nil =>
      intro post acc _ _
      simp [routeWalk]
  | cons s mid' ih =>
      intro post acc hB hE
      have hsB : ¬ s = B := fun hc => hB (hc ▸ List.mem_cons_self _ _)
      have hB' : B ∉ mid' := fun hc => hB (List.mem_cons_of_mem _ hc)
      have hE' : ∀ x ∈ mid', (findEdgeForRoute net x rk).isSome :=
        fun x hx => hE x (List.mem_cons_of_mem _ hx)
      obtain ⟨e, hfind⟩ := Option.isSome_iff_exists.mp (hE s (List.mem_cons_self _ _))
      simp only [List.cons_append, routeWalk, if_neg hsB, Bool.true_or, if_pos, hfind]
      rw [List.append_eq, ih post (acc + e.travelTime) hB' hE']
      simp [hopTime, hfind, Nat.add_assoc]

theorem routeWalk_self (net : TransportNetwork) (rk : Nat) (A : String) :
    ∀ (l : List String), routeWalk net rk A A l false 0 = 0 := by
  intro l
  induction l with
  | nil => rfl
  | cons s rest ih =>
      by_cases hsA : s = A
      · simp only [routeWalk, if_pos hsA]
      · simp only [routeWalk, Bool.false_or, decide_eq_false hsA, if_neg hsA,
          Bool.false_eq_true, if_false]
        exact ih

/-- C7: `GetTravelTime(line, route, A, B)` returns the sum of the per-hop
edge travel times along the route from `A` to `B` when `A` appears strictly
before `B` among the route's stops, and `0` when `A = B`, when `A` does not
appear before `B`, or when either station is not on the route (in particular
when the route or a station is unknown). -/
theorem route_travel_time (net : TransportNetwork) (line route A B : String) :
    (A = B → GetTravelTimeOnRoute net line route A B = 0) ∧
    (∀ ri, GetRoute net line route = some ri →
      (B ∉ ri.stops → GetTravelTimeOnRoute net line route A B = 0) ∧
      (∀ pre post, ri.stops = pre ++ B :: post → A ∉ pre → B ∉ pre →
          GetTravelTimeOnRoute net line route A B = 0) ∧
      (∀ pre mid post, ri.stops = pre ++ A :: (mid ++ B :: post) →
          ri.stops.Nodup →
          (∀ s ∈ A :: mid, (findEdgeForRoute net s ri.key).isSome) →
          GetStation net A ≠ none → GetStation net B ≠ none →
          GetTravelTimeOnRoute net line route A B =
            ((A :: mid).map (hopTime net ri.key)).sum)) := by
  constructor
  · intro hAB
    subst hAB
    unfold GetTravelTimeOnRoute
    cases hroute : GetRoute net line route with
    | none => rfl
    | some ri =>
        cases hA : GetStation net A with
        | none => rfl
        | some nA => exact routeWalk_self net ri.key A ri.stops
  · intro ri hroute
    refine ⟨?_, ?_, ?_⟩
    · intro hB
      unfold GetTravelTimeOnRoute
      rw [hroute]
      cases hsA : GetStation net A with
      | none => rfl
      | some nA =>
          cases hsB : GetStation net B with
          | none => rfl
          | some nB => exact routeWalk_noB net ri.key A B ri.stops false 0 hB
    · intro pre post hstops hApre hBpre
      unfold GetTravelTimeOnRoute
      rw [hroute]
      cases hsA : GetStation net A with
      | none => rfl
      | some nA =>
          cases hsB : GetStation net B with
          | none => rfl
          | some nB =>
              dsimp only
              rw [hstops, routeWalk_pre net ri.key A B pre (B :: post) 0 hApre hBpre]
              simp [routeWalk]
    · intro pre mid post hstops hnd hE hgA hgB
      have hnd2 := hstops ▸ hnd
      rw [List.nodup_append] at hnd2
      obtain ⟨hndpre, hndrest, hdisj⟩ := hnd2
      have hApre : A ∉ pre := fun hc =>
        (hdisj hc) (List.mem_cons_self _ _)
      have hBpre : B ∉ pre := fun hc =>
        (hdisj hc) (List.mem_cons_of_mem _
          (List.mem_append.mpr (Or.inr (List.mem_cons_self _ _))))
      rw [List.nodup_cons] at hndrest
      obtain ⟨hAnot, hndmid⟩ := hndrest
      have hAB : ¬ A = B := fun hc =>
        hAnot (hc ▸ List.mem_append.mpr (Or.inr (List.mem_cons_self _ _)))
      rw [List.nodup_append] at hndmid
      have hBmid : B ∉ mid := fun hc =>
        (hndmid.2.2 hc) (List.mem_cons_self _ _)
      unfold GetTravelTimeOnRoute
      rw [hroute]
      cases hsA : GetStation net A with
      | none => exact absurd hsA hgA
      | some nA =>
          cases hsB : GetStation net B with
          | none => exact absurd hsB hgB
          | some nB =>
              dsimp only
              rw [hstops, routeWalk_pre net ri.key A B pre _ 0 hApre hBpre]
              obtain ⟨eA, hfindA⟩ := Option.isSome_iff_exists.mp
                (hE A (List.mem_cons_self _ _))
              have hEmid : ∀ s ∈ mid, (findEdgeForRoute net s ri.key).isSome :=
                fun s hs => hE s (List.mem_cons_of_mem _ hs)
              simp only [routeWalk, Bool.false_or, decide_eq_true_eq, if_neg hAB,
                decide_eq_true rfl, if_pos, hfindA, decide_True]
              rw [routeWalk_found net ri.key A B mid post (0 + eA.travelTime)
                hBmid hEmid]
              simp [hopTime, hfindA]

/-- Witness for C7 on the linear network: `A` to `C` along route `R` sums the
two hop times (2 + 3), and the consecutive-stop instance `A` to `B` gives the
single edge time. -/
theorem route_travel_time_witness :
    GetTravelTimeOnRoute exNetABC "L" "R" "A" "C" =
      ((["A", "B"]).map (hopTime exNetABC 0)).sum ∧
    GetTravelTimeOnRoute exNetABC "L" "R" "A" "B" =
      ((["A"]).map (hopTime exNetABC 0)).sum ∧
    GetTravelTimeOnRoute exNetABC "L" "R" "C" "A" = 0 :=
  ⟨((route_travel_time exNetABC "L" "R" "A" "C").2 ⟨0, "R", "L", ["A", "B", "C"]⟩
      (by rfl)).2.2 [] ["B"] [] (by rfl) (by decide) (by decide) (by decide) (by decide),
   ((route_travel_time exNetABC "L" "R" "A" "B").2 ⟨0, "R", "L", ["A", "B", "C"]⟩
      (by rfl)).2.2 [] [] ["C"] (by rfl) (by decide) (by decide) (by decide) (by decide),
   ((route_travel_time exNetABC "L" "R" "C" "A").2 ⟨0, "R", "L", ["A", "B", "C"]⟩
      (by rfl)).2.1 [] ["B", "C"] (by rfl) (by decide) (by decide)⟩

/-! ## Dijkstra loop invariants (towards C4 and C10) -/

theorem popMin_none {l : List (PathStop × Nat)} : popMin l = none ↔ l = [] := by
  cases l with
  | nil => simp [popMin]
  | cons x xs =>
      simp only [popMin]
      cases h : popMin xs with
      | none => simp
      | some p =>
          obtain ⟨y, ys⟩ := p
          by_cases hle : x.2 ≤ y.2 <;> simp [hle]

theorem popMin_perm {l : List (PathStop × Nat)} {m : PathStop × Nat}
    {rest : List (PathStop × Nat)} (h : popMin l = some (m, rest)) :
    l.Perm (m :: rest) := by
  induction l generalizing m rest with
  | nil => simp [popMin] at h
  | cons x xs ih =>
      simp only [popMin] at h
      cases h2 : popMin xs with
      | none =>
          rw [h2] at h
          dsimp only at h
          have hx : xs = [] := popMin_none.mp h2
          subst hx
          simp only [Option.some.injEq, Prod.mk.injEq] at h
          obtain ⟨h3, h4⟩ := h
          subst h3
          subst h4
          exact List.Perm.refl _
      | some p =>
          obtain ⟨y, ys⟩ := p
          rw [h2] at h
          dsimp only at h
          by_cases hle : x.2 ≤ y.2
          · rw [if_pos hle] at h
            simp only [Option.some.injEq, Prod.mk.injEq] at h
            obtain ⟨h3, h4⟩ := h
            subst h3
            subst h4
            exact List.Perm.refl _
          · rw [if_neg hle] at h
            simp only [Option.some.injEq, Prod.mk.injEq] at h
            obtain ⟨h3, h4⟩ := h
            subst h3
            subst h4
            exact List.Perm.trans ((ih h2).cons x) (List.Perm.swap y x ys)

theorem popMin_min {l : List (PathStop × Nat)} {m : PathStop × Nat}
    {rest : List (PathStop × Nat)} (h : popMin l = some (m, rest)) :
    ∀ z ∈ l, m.2 ≤ z.2 := by
  induction l generalizing m rest with
  | nil => simp [popMin] at h
  | cons x xs ih =>
      simp only [popMin] at h
      cases h2 : popMin xs with
      | none =>
          rw [h2] at h
          dsimp only at h
          have hx : xs = [] := popMin_none.mp h2
          subst hx
          simp only [Option.some.injEq, Prod.mk.injEq] at h
          obtain ⟨h3, -⟩ := h
          subst h3
          intro z hz
          simp at hz
          subst hz
          exact Nat.le_refl _
      | some p =>
          obtain ⟨y, ys⟩ := p
          rw [h2] at h
          dsimp only at h
          by_cases hle : x.2 ≤ y.2
          · rw [if_pos hle] at h
            simp only [Option.some.injEq, Prod.mk.injEq] at h
            obtain ⟨h3, -⟩ := h
            subst h3
            intro z hz
            rcases List.mem_cons.mp hz with hz | hz
            · subst hz
              exact Nat.le_refl _
            · exact Nat.le_trans hle (ih h2 z hz)
          · rw [if_neg hle] at h
            simp only [Option.some.injEq, Prod.mk.injEq] at h
            obtain ⟨h3, -⟩ := h
            subst h3
            intro z hz
            rcases List.mem_cons.mp hz with hz | hz
            · subst hz
              exact Nat.le_of_lt (Nat.lt_of_not_le hle)
            · exact ih h2 z hz

theorem popMin_mem {l : List (PathStop × Nat)} {m : PathStop × Nat}
    {rest : List (PathStop × Nat)} (h : popMin l = some (m, rest)) : m ∈ l :=
  (popMin_perm h).mem_iff.mpr (List.mem_cons_self _ _)

/-- The relaxation relation: `q` is the `PathStop` reached from a popped stop
`p` through the edge recorded in `q`, at relaxation cost `c` (edge time plus
route-change penalty). -/
def StepRel (net : TransportNetwork) (p q : PathStop) (c : Nat) : Prop :=
  ∃ i e, q.edge = some ⟨p.node, i⟩ ∧ (edgesOf net p.node).get? i = some e ∧
    q.node = e.nextStop ∧ c = e.travelTime + penalty net p e

/-- The cost of the unique relaxation between two given stops is determined. -/
theorem StepRel_unique {net : TransportNetwork} {p q : PathStop} {c c' : Nat}
    (h : StepRel net p q c) (h' : StepRel net p q c') : c = c' := by
  obtain ⟨i, e, hq, hget, -, hc⟩ := h
  obtain ⟨i', e', hq', hget', -, hc'⟩ := h'
  rw [hq] at hq'
  obtain ⟨-, hi⟩ := EdgeRef.mk.injEq .. ▸ Option.some.inj hq'
  subst hi
  rw [hget] at hget'
  have he := Option.some.inj hget'
  subst he
  rw [hc, hc']

/-- After popping `p` at distance `dp`, every relaxation out of `p` is already
beaten by the recorded distances. -/
def Harmless (net : TransportNetwork) (p : PathStop) (dp : Nat)
    (dist : List (PathStop × Nat)) : Prop :=
  ∀ q c, StepRel net p q c → ∃ dq, alookup dist q = some dq ∧ dq ≤ dp + c

/-- One-edge adjacency of the station graph. -/
def edgeStep (net : TransportNetwork) (x y : String) : Prop :=
  ∃ e ∈ edgesOf net x, e.nextStop = y

/-- Graph reachability along directed edges. -/
def Reachable (net : TransportNetwork) (x y : String) : Prop :=
  Relation.ReflTransGen (edgeStep net) x y

/-- The inductive invariant of the source's Dijkstra loop (stated for the
public search, whose `excluded` set is empty). -/
structure DijkInv (net : TransportNetwork) (Aid Bid : String)
    (st : DijkstraState) : Prop where
  distNodup : (st.dist.map Prod.fst).Nodup
  prevNodup : (st.prev.map Prod.fst).Nodup
  origin0 : alookup st.dist ⟨Aid, none⟩ = some 0
  edgeNone : ∀ k v, (k, v) ∈ st.dist → k.edge = none → k = ⟨Aid, none⟩
  prevRel : ∀ q p, (q, p) ∈ st.prev → ∃ c dq dp, StepRel net p q c ∧
      alookup st.dist q = some dq ∧ alookup st.dist p = some dp ∧
      dp + c ≤ dq ∧ (dq = dp + c ∨ (p, dp) ∈ st.queue)
  queueB : ∀ p d, (p, d) ∈ st.queue → ∃ dp, alookup st.dist p = some dp ∧ dp ≤ d
  staleC : ∀ p d, (p, d) ∈ st.queue → p.node ≠ Bid → ∀ dp,
      alookup st.dist p = some dp → dp < d →
      (Harmless net p dp st.dist ∨ (p, dp) ∈ st.queue)
  prevNotB : ∀ q p, (q, p) ∈ st.prev → p.node ≠ Bid
  prevFromA : ∀ q p, (q, p) ∈ st.prev → p.node = Aid → p.edge = none
  originEdges : (∀ i e, (edgesOf net Aid).get? i = some e →
      ∃ v, alookup st.dist ⟨e.nextStop, some ⟨Aid, i⟩⟩ = some v ∧
        v ≤ e.travelTime) ∨ st = initState Aid
  reach : ∀ k v, (k, v) ∈ st.dist → Reachable net Aid k.node

theorem dijkInv_init (net : TransportNetwork) (Aid Bid : String) :
    DijkInv net Aid Bid (initState Aid) := by
  refine ⟨?_, ?_, ?_, ?_, ?_, ?_, ?_, ?_, ?_, ?_, ?_⟩
  · simp [initState]
  · simp [initState]
  · simp [initState, alookup]
  · intro k v hk _
    simp [initState] at hk
    exact hk.1
  · intro q p hqp
    simp [initState] at hqp
  · intro p d hpd
    simp [initState] at hpd
    refine ⟨0, ?_, Nat.le_of_eq hpd.2.symm⟩
    rw [hpd.1]
    simp [initState, alookup]
  · intro p d hpd _ dp hdp hlt
    simp [initState] at hpd
    rw [hpd.1] at hdp
    simp [initState, alookup] at hdp
    omega
  · intro q p hqp
    simp [initState] at hqp
  · intro q p hqp
    simp [initState] at hqp
  · exact Or.inr rfl
  · intro k v hk
    simp [initState] at hk
    rw [hk.1]
    exact Relation.ReflTransGen.refl

theorem relaxOne_eq (net : TransportNetwork) (p : PathStop) (dp : Nat) (i : Nat)
    (e : GraphEdge) (st : DijkstraState) :
    (relaxOne net [] p dp i e st = st ∧
      ∃ old, alookup st.dist ⟨e.nextStop, some ⟨p.node, i⟩⟩ = some old ∧
        old ≤ dp + e.travelTime + penalty net p e) ∨
    (relaxOne net [] p dp i e st =
      ⟨aupdate st.dist ⟨e.nextStop, some ⟨p.node, i⟩⟩
         (dp + e.travelTime + penalty net p e),
       aupdate st.prev ⟨e.nextStop, some ⟨p.node, i⟩⟩ p,
       (⟨e.nextStop, some ⟨p.node, i⟩⟩,
        dp + e.travelTime + penalty net p e) :: st.queue⟩ ∧
     ∀ v, alookup st.dist ⟨e.nextStop, some ⟨p.node, i⟩⟩ = some v →
       dp + e.travelTime + penalty net p e < v) := by
  unfold relaxOne
  rw [if_neg (List.not_mem_nil _)]
  dsimp only
  cases halq : alookup st.dist ⟨e.nextStop, some ⟨p.node, i⟩⟩ with
  | none =>
      right
      refine ⟨rfl, ?_⟩
      intro v hv
      exact absurd hv (by simp)
  | some old =>
      dsimp only
      by_cases hlt : dp + e.travelTime + penalty net p e < old
      · right
        rw [if_pos hlt]
        refine ⟨rfl, ?_⟩
        intro v hv
        rw [← Option.some.inj hv]
        exact hlt
      · left
        rw [if_neg hlt]
        exact ⟨rfl, old, rfl, Nat.le_of_not_lt hlt⟩

/-- The invariant threaded through the neighborhood-exploration fold of one
fresh pop of `p` (the `pr = p` / `x = p` disjuncts are re-established as
equalities once all of `p`'s edges have been relaxed). -/
structure MidInv (net : TransportNetwork) (Aid Bid : String) (p : PathStop)
    (st : DijkstraState) : Prop where
  distNodup : (st.dist.map Prod.fst).Nodup
  prevNodup : (st.prev.map Prod.fst).Nodup
  origin0 : alookup st.dist ⟨Aid, none⟩ = some 0
  edgeNone : ∀ k v, (k, v) ∈ st.dist → k.edge = none → k = ⟨Aid, none⟩
  prevRel : ∀ q pr, (q, pr) ∈ st.prev → ∃ c dq dpr, StepRel net pr q c ∧
      alookup st.dist q = some dq ∧ alookup st.dist pr = some dpr ∧
      dpr + c ≤ dq ∧ (dq = dpr + c ∨ (pr, dpr) ∈ st.queue ∨ pr = p)
  queueB : ∀ x d, (x, d) ∈ st.queue → ∃ dx, alookup st.dist x = some dx ∧ dx ≤ d
  staleC : ∀ x d, (x, d) ∈ st.queue → x.node ≠ Bid → ∀ dx,
      alookup st.dist x = some dx → dx < d →
      (Harmless net x dx st.dist ∨ (x, dx) ∈ st.queue ∨ x = p)
  prevNotB : ∀ q pr, (q, pr) ∈ st.prev → pr.node ≠ Bid
  prevFromA : ∀ q pr, (q, pr) ∈ st.prev → pr.node = Aid → pr.edge = none
  reach : ∀ k v, (k, v) ∈ st.dist → Reachable net Aid k.node

theorem aupdate_evolution {dist : List (PathStop × Nat)} {nb : PathStop} {cand : Nat}
    (hlt : ∀ v, alookup dist nb = some v → cand < v) :
    ∀ k v, alookup dist k = some v →
      ∃ v', v' ≤ v ∧ alookup (aupdate dist nb cand) k = some v' := by
  intro k v hk
  by_cases hknb : k = nb
  · subst hknb
    exact ⟨cand, Nat.le_of_lt (hlt v hk), by rw [alookup_aupdate, if_pos rfl]⟩
  · exact ⟨v, Nat.le_refl v, by rw [alookup_aupdate, if_neg hknb]; exact hk⟩

theorem harmless_mono {net : TransportNetwork} {x : PathStop} {dx : Nat}
    {dist dist' : List (PathStop × Nat)}
    (hev : ∀ k v, alookup dist k = some v →
      ∃ v', v' ≤ v ∧ alookup dist' k = some v')
    (hh : Harmless net x dx dist) : Harmless net x dx dist' := by
  intro q c hqc
  obtain ⟨dq, hdq, hle⟩ := hh q c hqc
  obtain ⟨v', hv', hfind⟩ := hev q dq hdq
  exact ⟨v', hfind, Nat.le_trans hv' hle⟩

theorem relaxUpdate_post (net : TransportNetwork) (Aid Bid : String) (p : PathStop)
    (dp i : Nat) (e : GraphEdge) (st : DijkstraState)
    (hreachp : Reachable net Aid p.node) (hpnotB : p.node ≠ Bid)
    (hp : alookup st.dist p = some dp)
    (he : (edgesOf net p.node).get? i = some e)
    (hAid : p.node = Aid → p.edge = none ∨ ∀ j e',
        (edgesOf net Aid).get? j = some e' →
        ∃ v, alookup st.dist ⟨e'.nextStop, some ⟨Aid, j⟩⟩ = some v ∧
          v ≤ e'.travelTime)
    (hmid : MidInv net Aid Bid p st)
    (hlt : ∀ v, alookup st.dist ⟨e.nextStop, some ⟨p.node, i⟩⟩ = some v →
        dp + e.travelTime + penalty net p e < v) :
    MidInv net Aid Bid p
      ⟨aupdate st.dist ⟨e.nextStop, some ⟨p.node, i⟩⟩
         (dp + e.travelTime + penalty net p e),
       aupdate st.prev ⟨e.nextStop, some ⟨p.node, i⟩⟩ p,
       (⟨e.nextStop, some ⟨p.node, i⟩⟩,
        dp + e.travelTime + penalty net p e) :: st.queue⟩ := by
  have hnbO : (⟨Aid, none⟩ : PathStop) ≠ ⟨e.nextStop, some ⟨p.node, i⟩⟩ := by
    intro hc
    exact absurd (congrArg PathStop.edge hc) (by simp)
  have hpne : p ≠ ⟨e.nextStop, some ⟨p.node, i⟩⟩ := by
    intro hc
    rw [← hc] at hlt
    exact absurd (hlt dp hp) (by
      rw [hc]
      omega)
  have hev := @aupdate_evolution _ ⟨e.nextStop, some ⟨p.node, i⟩⟩
    (dp + e.travelTime + penalty net p e) hlt
  have hpkeep : alookup (aupdate st.dist ⟨e.nextStop, some ⟨p.node, i⟩⟩
      (dp + e.travelTime + penalty net p e)) p = some dp := by
    rw [alookup_aupdate, if_neg hpne]
    exact hp
  have hself : alookup (aupdate st.dist ⟨e.nextStop, some ⟨p.node, i⟩⟩
      (dp + e.travelTime + penalty net p e)) ⟨e.nextStop, some ⟨p.node, i⟩⟩ =
      some (dp + e.travelTime + penalty net p e) := by
    rw [alookup_aupdate, if_pos rfl]
  refine ⟨?_, ?_, ?_, ?_, ?_, ?_, ?_, ?_, ?_, ?_⟩
  · exact aupdate_keys_nodup _ _ hmid.distNodup
  · exact aupdate_keys_nodup _ _ hmid.prevNodup
  · show alookup (aupdate st.dist _ _) ⟨Aid, none⟩ = some 0
    rw [alookup_aupdate, if_neg hnbO]
    exact hmid.origin0
  · intro k v hkv hke
    rcases mem_aupdate hmid.distNodup hkv with ⟨hknb, -⟩ | ⟨hold, -⟩
    · rw [hknb] at hke
      exact absurd hke (by simp)
    · exact hmid.edgeNone k v hold hke
  · intro q pr hqpr
    rcases mem_aupdate hmid.prevNodup hqpr with ⟨hqnb, hprp⟩ | ⟨hold, hqne⟩
    · subst hqnb
      rw [hprp]
      refine ⟨e.travelTime + penalty net p e,
        dp + e.travelTime + penalty net p e, dp,
        ⟨i, e, rfl, he, rfl, rfl⟩, hself, hpkeep, by omega, Or.inl (by omega)⟩
    · obtain ⟨c, dq, dpr, hstep, hdq, hdpr, hle, hdisj⟩ := hmid.prevRel q pr hold
      have hdq' : alookup (aupdate st.dist ⟨e.nextStop, some ⟨p.node, i⟩⟩
          (dp + e.travelTime + penalty net p e)) q = some dq := by
        rw [alookup_aupdate, if_neg hqne]
        exact hdq
      by_cases hprnb : pr = ⟨e.nextStop, some ⟨p.node, i⟩⟩
      · have hcd : dp + e.travelTime + penalty net p e < dpr := by
          apply hlt
          rw [← hprnb]
          exact hdpr
        refine ⟨c, dq, dp + e.travelTime + penalty net p e, hstep, hdq', ?_, by omega,
          Or.inr (Or.inl ?_)⟩
        · rw [hprnb]
          exact hself
        · rw [hprnb]
          exact List.mem_cons_self _ _
      · have hdpr' : alookup (aupdate st.dist ⟨e.nextStop, some ⟨p.node, i⟩⟩
            (dp + e.travelTime + penalty net p e)) pr = some dpr := by
          rw [alookup_aupdate, if_neg hprnb]
          exact hdpr
        refine ⟨c, dq, dpr, hstep, hdq', hdpr', hle, ?_⟩
        rcases hdisj with h1 | h1 | h1
        · exact Or.inl h1
        · exact Or.inr (Or.inl (List.mem_cons_of_mem _ h1))
        · exact Or.inr (Or.inr h1)
  · intro x d hxd
    rcases List.mem_cons.mp hxd with h1 | h1
    · obtain ⟨hx, hd⟩ := Prod.mk.injEq .. ▸ h1
      subst hx
      exact ⟨dp + e.travelTime + penalty net p e, hself, Nat.le_of_eq hd.symm⟩
    · obtain ⟨dx, hdx, hdle⟩ := hmid.queueB x d h1
      by_cases hxnb : x = ⟨e.nextStop, some ⟨p.node, i⟩⟩
      · refine ⟨dp + e.travelTime + penalty net p e, ?_, ?_⟩
        · rw [hxnb]
          exact hself
        · have := hlt dx (hxnb ▸ hdx)
          omega
      · refine ⟨dx, ?_, hdle⟩
        rw [alookup_aupdate, if_neg hxnb]
        exact hdx
  · intro x d hxd hxB dx hdx hlt2
    rcases List.mem_cons.mp hxd with h1 | h1
    · obtain ⟨hx, hd⟩ := Prod.mk.injEq .. ▸ h1
      subst hx
      rw [hself] at hdx
      have := Option.some.inj hdx
      omega
    · by_cases hxnb : x = ⟨e.nextStop, some ⟨p.node, i⟩⟩
      · refine Or.inr (Or.inl ?_)
        rw [hxnb] at hdx ⊢
        rw [hself] at hdx
        rw [← Option.some.inj hdx]
        exact List.mem_cons_self _ _
      · have hdxold : alookup st.dist x = some dx := by
          rw [alookup_aupdate, if_neg hxnb] at hdx
          exact hdx
        rcases hmid.staleC x d h1 hxB dx hdxold hlt2 with h2 | h2 | h2
        · exact Or.inl (harmless_mono hev h2)
        · exact Or.inr (Or.inl (List.mem_cons_of_mem _ h2))
        · exact Or.inr (Or.inr h2)
  · intro q pr hqpr
    rcases mem_aupdate hmid.prevNodup hqpr with ⟨-, hprp⟩ | ⟨hold, -⟩
    · rw [hprp]
      exact hpnotB
    · exact hmid.prevNotB q pr hold
  · intro q pr hqpr
    rcases mem_aupdate hmid.prevNodup hqpr with ⟨-, hprp⟩ | ⟨hold, -⟩
    · rw [hprp]
      intro hpA
      rcases hAid hpA with h1 | h1
      · exact h1
      · exfalso
        obtain ⟨v, hv, hvle⟩ := h1 i e (by rw [← hpA]; exact he)
        have hveq : alookup st.dist ⟨e.nextStop, some ⟨p.node, i⟩⟩ = some v := by
          rw [hpA]
          exact hv
        have := hlt v hveq
        omega
    · exact hmid.prevFromA q pr hold
  · intro k v hkv
    rcases mem_aupdate hmid.distNodup hkv with ⟨hknb, -⟩ | ⟨hold, -⟩
    · rw [hknb]
      refine Relation.ReflTransGen.tail hreachp ⟨e, ?_, rfl⟩
      exact List.get?_mem he
    · exact hmid.reach k v hold

theorem relaxOne_post (net : TransportNetwork) (Aid Bid : String) (p : PathStop)
    (dp i : Nat) (e : GraphEdge) (st : DijkstraState)
    (hreachp : Reachable net Aid p.node) (hpnotB : p.node ≠ Bid)
    (hp : alookup st.dist p = some dp)
    (he : (edgesOf net p.node).get? i = some e)
    (hAid : p.node = Aid → p.edge = none ∨ ∀ j e',
        (edgesOf net Aid).get? j = some e' →
        ∃ v, alookup st.dist ⟨e'.nextStop, some ⟨Aid, j⟩⟩ = some v ∧
          v ≤ e'.travelTime)
    (hmid : MidInv net Aid Bid p st) :
    MidInv net Aid Bid p (relaxOne net [] p dp i e st) ∧
    alookup (relaxOne net [] p dp i e st).dist p = some dp ∧
    (∀ k v, alookup st.dist k = some v → ∃ v', v' ≤ v ∧
      alookup (relaxOne net [] p dp i e st).dist k = some v') ∧
    (∃ v, alookup (relaxOne net [] p dp i e st).dist
        ⟨e.nextStop, some ⟨p.node, i⟩⟩ = some v ∧
      v ≤ dp + (e.travelTime + penalty net p e)) := by
  rcases relaxOne_eq net p dp i e st with ⟨heq, old, hold, holdle⟩ | ⟨heq, hlt⟩
  · rw [heq]
    exact ⟨hmid, hp, fun k v hk => ⟨v, Nat.le_refl v, hk⟩, old, hold, by omega⟩
  · rw [heq]
    have hpne : p ≠ ⟨e.nextStop, some ⟨p.node, i⟩⟩ := by
      intro hc
      rw [← hc] at hlt
      have := hlt dp hp
      rw [hc] at this
      omega
    refine ⟨relaxUpdate_post net Aid Bid p dp i e st hreachp hpnotB hp he hAid hmid hlt,
      ?_, ?_, ?_⟩
    · show alookup (aupdate st.dist _ _) p = some dp
      rw [alookup_aupdate, if_neg hpne]
      exact hp
    · exact aupdate_evolution hlt
    · refine ⟨dp + e.travelTime + penalty net p e, ?_, by omega⟩
      show alookup (aupdate st.dist _ _) _ = _
      rw [alookup_aupdate, if_pos rfl]

theorem relaxEdges_master (net : TransportNetwork) (Aid Bid : String)
    (p : PathStop) (dp : Nat)
    (hreachp : Reachable net Aid p.node) (hpnotB : p.node ≠ Bid) :
    ∀ (es : List GraphEdge) (i : Nat) (st : DijkstraState),
    alookup st.dist p = some dp →
    (∀ j, es.get? j = (edgesOf net p.node).get? (i + j)) →
    i + es.length = (edgesOf net p.node).length →
    (∀ j e', j < i → (edgesOf net p.node).get? j = some e' →
      ∃ v, alookup st.dist ⟨e'.nextStop, some ⟨p.node, j⟩⟩ = some v ∧
        v ≤ dp + (e'.travelTime + penalty net p e')) →
    (p.node = Aid → p.edge = none ∨ ∀ j e',
        (edgesOf net Aid).get? j = some e' →
        ∃ v, alookup st.dist ⟨e'.nextStop, some ⟨Aid, j⟩⟩ = some v ∧
          v ≤ e'.travelTime) →
    MidInv net Aid Bid p st →
    (MidInv net Aid Bid p (relaxEdges net [] p dp es i st) ∧
     alookup (relaxEdges net [] p dp es i st).dist p = some dp ∧
     (∀ k v, alookup st.dist k = some v → ∃ v', v' ≤ v ∧
       alookup (relaxEdges net [] p dp es i st).dist k = some v') ∧
     Harmless net p dp (relaxEdges net [] p dp es i st).dist) := by
  intro es
  induction es with
  | nil =>
      intro i st hp hes hlen hproc hAid hmid
      refine ⟨hmid, hp, fun k v hk => ⟨v, Nat.le_refl v, hk⟩, ?_⟩
      intro q c hqc
      obtain ⟨j, e', hq, hget, hnode, hc⟩ := hqc
      have hj : j < (edgesOf net p.node).length := by
        rcases List.get?_eq_some.mp hget with ⟨hlt2, -⟩
        exact hlt2
      have hji : j < i := by
        simp at hlen
        omega
      obtain ⟨v, hv, hvle⟩ := hproc j e' hji hget
      have hqeq : q = ⟨e'.nextStop, some ⟨p.node, j⟩⟩ := by
        obtain ⟨qn, qe⟩ := q
        dsimp only at hq hnode
        rw [hq, hnode]
      rw [hqeq, hc]
      exact ⟨v, hv, hvle⟩
  | cons e es' ih =>
      intro i st hp hes hlen hproc hAid hmid
      have he : (edgesOf net p.node).get? i = some e := by simpa using (hes 0).symm
      obtain ⟨hmid1, hp1, hev1, hharm1⟩ :=
        relaxOne_post net Aid Bid p dp i e st hreachp hpnotB hp he hAid hmid
      have hes' : ∀ j, es'.get? j = (edgesOf net p.node).get? (i + 1 + j) := by
        intro j
        have := hes (j + 1)
        simpa [Nat.add_assoc, Nat.add_comm 1 j] using this
      have hlen' : i + 1 + es'.length = (edgesOf net p.node).length := by
        simp at hlen
        omega
      have hproc' : ∀ j e', j < i + 1 → (edgesOf net p.node).get? j = some e' →
          ∃ v, alookup (relaxOne net [] p dp i e st).dist
            ⟨e'.nextStop, some ⟨p.node, j⟩⟩ = some v ∧
            v ≤ dp + (e'.travelTime + penalty net p e') := by
        intro j e' hj hget
        by_cases hji : j < i
        · obtain ⟨v, hv, hvle⟩ := hproc j e' hji hget
          obtain ⟨v', hv'le, hv'⟩ := hev1 _ v hv
          exact ⟨v', hv', Nat.le_trans hv'le hvle⟩
        · have hjeq : j = i := by omega
          subst hjeq
          rw [he] at hget
          have hee : e = e' := Option.some.inj hget
          subst hee
          exact hharm1
      have hAid' : p.node = Aid → p.edge = none ∨ ∀ j e',
          (edgesOf net Aid).get? j = some e' →
          ∃ v, alookup (relaxOne net [] p dp i e st).dist
            ⟨e'.nextStop, some ⟨Aid, j⟩⟩ = some v ∧ v ≤ e'.travelTime := by
        intro hpA
        rcases hAid hpA with h1 | h1
        · exact Or.inl h1
        · refine Or.inr ?_
          intro j e' hget
          obtain ⟨v, hv, hvle⟩ := h1 j e' hget
          obtain ⟨v', hv'le, hv'⟩ := hev1 _ v hv
          exact ⟨v', hv', Nat.le_trans hv'le hvle⟩
      obtain ⟨hmid2, hp2, hev2, hharm2⟩ :=
        ih (i + 1) (relaxOne net [] p dp i e st) hp1 hes' hlen' hproc' hAid' hmid1
      refine ⟨hmid2, hp2, ?_, hharm2⟩
      intro k v hk
      obtain ⟨v', hv'le, hv'⟩ := hev1 k v hk
      obtain ⟨v'', hv''le, hv''⟩ := hev2 k v' hv'
      exact ⟨v'', Nat.le_trans hv''le hv'le, hv''⟩

theorem relaxEdges_stale (net : TransportNetwork) (p : PathStop) (dp d : Nat)
    (hd : dp ≤ d) :
    ∀ (es : List GraphEdge) (i : Nat) (st : DijkstraState),
    alookup st.dist p = some dp →
    (∀ j, es.get? j = (edgesOf net p.node).get? (i + j)) →
    Harmless net p dp st.dist →
    relaxEdges net [] p d es i st = st := by
  intro es
  induction es with
  | nil => intro i st _ _ _; rfl
  | cons e es' ih =>
      intro i st hp hes hh
      have he : (edgesOf net p.node).get? i = some e := by simpa using (hes 0).symm
      have hstep : StepRel net p ⟨e.nextStop, some ⟨p.node, i⟩⟩
          (e.travelTime + penalty net p e) := ⟨i, e, rfl, he, rfl, rfl⟩
      obtain ⟨dq, hdq, hle⟩ := hh _ _ hstep
      have hone : relaxOne net [] p d i e st = st := by
        rcases relaxOne_eq net p d i e st with ⟨heq, -⟩ | ⟨-, hlt⟩
        · exact heq
        · exfalso
          have := hlt dq hdq
          omega
      show relaxEdges net [] p d es' (i + 1) (relaxOne net [] p d i e st) = st
      rw [hone]
      refine ih (i + 1) st hp (fun j => ?_) hh
      have := hes (j + 1)
      simpa [Nat.add_assoc, Nat.add_comm 1 j] using this

theorem dijkInv_pop (net : TransportNetwork) (Aid Bid : String)
    {st : DijkstraState} {p : PathStop} {d : Nat} {rest : List (PathStop × Nat)}
    (hinv : DijkInv net Aid Bid st)
    (hperm : st.queue.Perm ((p, d) :: rest))
    (hAB : Aid ≠ Bid)
    (hdiff : ∀ dx, alookup st.dist p = some dx → p.node ≠ Bid → dx ≠ d) :
    DijkInv net Aid Bid { st with queue := rest } := by
  have hsub : ∀ z ∈ rest, z ∈ st.queue :=
    fun z hz => hperm.mem_iff.mpr (List.mem_cons_of_mem _ hz)
  have hsplit : ∀ (x : PathStop) (dx : Nat), (x, dx) ∈ st.queue →
      alookup st.dist x = some dx → x.node ≠ Bid → (x, dx) ∈ rest := by
    intro x dx hx hdx hxB
    rcases List.mem_cons.mp (hperm.mem_iff.mp hx) with h1 | h1
    · obtain ⟨hx1, hd1⟩ := Prod.mk.injEq .. ▸ h1
      subst hx1
      exact absurd hd1 (hdiff dx hdx hxB)
    · exact h1
  refine ⟨hinv.distNodup, hinv.prevNodup, hinv.origin0, hinv.edgeNone,
    ?_, ?_, ?_, hinv.prevNotB, hinv.prevFromA, ?_, hinv.reach⟩
  · intro q pr hqpr
    obtain ⟨c, dq, dpr, hstep, hdq, hdpr, hle, hdisj⟩ := hinv.prevRel q pr hqpr
    refine ⟨c, dq, dpr, hstep, hdq, hdpr, hle, ?_⟩
    rcases hdisj with h1 | h1
    · exact Or.inl h1
    · exact Or.inr (hsplit pr dpr h1 hdpr (hinv.prevNotB q pr hqpr))
  · intro x dx hx
    exact hinv.queueB x dx (hsub _ hx)
  · intro x dx hx hxB v hv hlt
    rcases hinv.staleC x dx (hsub _ hx) hxB v hv hlt with h1 | h1
    · exact Or.inl h1
    · exact Or.inr (hsplit x v h1 hv hxB)
  · rcases hinv.originEdges with h1 | h1
    · exact Or.inl h1
    · exfalso
      have hq : st.queue = [(⟨Aid, none⟩, 0)] := by rw [h1]; rfl
      rw [hq] at hperm
      have hpd : ((p, d) : PathStop × Nat) = (⟨Aid, none⟩, 0) := by
        have hl := hperm.length_eq
        simp at hl
        have hrest : rest = [] := hl
        subst hrest
        have := List.singleton_perm.mp hperm
        simpa using this.symm
      obtain ⟨hp1, hd1⟩ := Prod.mk.injEq .. ▸ hpd
      have hlook : alookup st.dist p = some 0 := by
        rw [hp1, h1]
        simp [initState, alookup]
      have hpB : p.node ≠ Bid := by
        rw [hp1]
        exact hAB
      exact hdiff 0 hlook hpB hd1.symm

theorem dijkstraLoop_inv (net : TransportNetwork) (Aid Bid : String)
    (hAB : Aid ≠ Bid) :
    ∀ (fuel : Nat) (st st' : DijkstraState), DijkInv net Aid Bid st →
      dijkstraLoop net Bid [] fuel st = some st' →
      DijkInv net Aid Bid st' ∧ st'.queue = [] := by
  intro fuel
  induction fuel with
  | zero =>
      intro st st' _ h
      simp [dijkstraLoop] at h
  | succ n ih =>
      intro st st' hinv h
      rw [dijkstraLoop] at h
      cases hpop : popMin st.queue with
      | none =>
          rw [hpop] at h
          have heq := Option.some.inj h
          subst heq
          exact ⟨hinv, popMin_none.mp hpop⟩
      | some pr =>
          obtain ⟨⟨p, d⟩, rest⟩ := pr
          rw [hpop] at h
          dsimp only at h
          have hmem := popMin_mem hpop
          have hperm := popMin_perm hpop
          have hmin := popMin_min hpop
          obtain ⟨dp, hdp, hdple⟩ := hinv.queueB p d hmem
          by_cases hpB : p.node = Bid
          · rw [if_pos hpB] at h
            refine ih _ st' ?_ h
            refine dijkInv_pop net Aid Bid hinv hperm hAB ?_
            intro dx hdx hxB
            exact absurd hpB hxB
          · rw [if_neg hpB] at h
            by_cases hfresh : dp = d
            · subst hfresh
              have hreachp : Reachable net Aid p.node :=
                hinv.reach p dp (alookup_mem hdp)
              have hmid0 : MidInv net Aid Bid p { st with queue := rest } := by
                refine ⟨hinv.distNodup, hinv.prevNodup, hinv.origin0, hinv.edgeNone,
                  ?_, ?_, ?_, hinv.prevNotB, hinv.prevFromA, hinv.reach⟩
                · intro q pr' hqpr
                  obtain ⟨c, dq, dpr, hstep, hdq, hdpr, hle, hdisj⟩ :=
                    hinv.prevRel q pr' hqpr
                  refine ⟨c, dq, dpr, hstep, hdq, hdpr, hle, ?_⟩
                  rcases hdisj with h1 | h1
                  · exact Or.inl h1
                  · rcases List.mem_cons.mp (hperm.mem_iff.mp h1) with h2 | h2
                    · obtain ⟨h3, -⟩ := Prod.mk.injEq .. ▸ h2
                      exact Or.inr (Or.inr h3)
                    · exact Or.inr (Or.inl h2)
                · intro x dx hx
                  exact hinv.queueB x dx (hperm.mem_iff.mpr (List.mem_cons_of_mem _ hx))
                · intro x dx hx hxB v hv hlt
                  rcases hinv.staleC x dx
                    (hperm.mem_iff.mpr (List.mem_cons_of_mem _ hx)) hxB v hv hlt
                    with h1 | h1
                  · exact Or.inl h1
                  · rcases List.mem_cons.mp (hperm.mem_iff.mp h1) with h2 | h2
                    · obtain ⟨h3, -⟩ := Prod.mk.injEq .. ▸ h2
                      exact Or.inr (Or.inr h3)
                    · exact Or.inr (Or.inl h2)
              have hAid0 : p.node = Aid → p.edge = none ∨ ∀ j e',
                  (edgesOf net Aid).get? j = some e' →
                  ∃ v, alookup st.dist ⟨e'.nextStop, some ⟨Aid, j⟩⟩ = some v ∧
                    v ≤ e'.travelTime := by
                intro hpA
                rcases hinv.originEdges with h1 | h1
                · exact Or.inr h1
                · left
                  have hq : st.queue = [(⟨Aid, none⟩, 0)] := by rw [h1]; rfl
                  rw [hq] at hmem
                  simp at hmem
                  rw [hmem.1]
              obtain ⟨hmidF, hpF, hevF, hharmF⟩ :=
                relaxEdges_master net Aid Bid p dp hreachp hpB
                  (edgesOf net p.node) 0 { st with queue := rest }
                  hdp (fun j => by simp) (by simp)
                  (by intro j e' hj _; omega) hAid0 hmid0
              refine ih _ st' ?_ h
              refine ⟨hmidF.distNodup, hmidF.prevNodup, hmidF.origin0,
                hmidF.edgeNone, ?_, hmidF.queueB, ?_, hmidF.prevNotB,
                hmidF.prevFromA, ?_, hmidF.reach⟩
              · intro q pr' hqpr
                obtain ⟨c, dq, dpr, hstep, hdq, hdpr, hle, hdisj⟩ :=
                  hmidF.prevRel q pr' hqpr
                refine ⟨c, dq, dpr, hstep, hdq, hdpr, hle, ?_⟩
                rcases hdisj with h1 | h1 | h1
                · exact Or.inl h1
                · exact Or.inr h1
                · left
                  rw [h1] at hstep hdpr
                  have hdpr2 : dpr = dp := by
                    rw [hpF] at hdpr
                    exact (Option.some.inj hdpr).symm
                  obtain ⟨dq2, hdq2, hle2⟩ := hharmF q c hstep
                  rw [hdq] at hdq2
                  have hdq3 : dq = dq2 := Option.some.inj hdq2
                  subst hdq3
                  subst hdpr2
                  omega
              · intro x dx hx hxB v hv hlt
                rcases hmidF.staleC x dx hx hxB v hv hlt with h1 | h1 | h1
                · exact Or.inl h1
                · exact Or.inr h1
                · left
                  rw [h1] at hv ⊢
                  rw [hpF] at hv
                  have hveq : v = dp := (Option.some.inj hv).symm
                  subst hveq
                  exact hharmF
              · left
                rcases hinv.originEdges with h1 | h1
                · intro j e' hget
                  obtain ⟨v, hv, hvle⟩ := h1 j e' hget
                  obtain ⟨v', hv'le, hv'⟩ := hevF _ v hv
                  exact ⟨v', hv', Nat.le_trans hv'le hvle⟩
                · have hq : st.queue = [(⟨Aid, none⟩, 0)] := by rw [h1]; rfl
                  rw [hq] at hmem
                  simp at hmem
                  obtain ⟨hp1, hd0⟩ := hmem
                  intro j e' hget
                  have hgetp : (edgesOf net p.node).get? j = some e' := by
                    rw [hp1]
                    exact hget
                  have hstep : StepRel net p ⟨e'.nextStop, some ⟨p.node, j⟩⟩
                      (e'.travelTime + penalty net p e') :=
                    ⟨j, e', rfl, hgetp, rfl, rfl⟩
                  obtain ⟨dq, hdq, hle⟩ := hharmF _ _ hstep
                  have hpen : penalty net p e' = 0 := by
                    rw [hp1]
                    rfl
                  rw [hpen] at hle
                  have hpA2 : p.node = Aid := by rw [hp1]
                  refine ⟨dq, ?_, by omega⟩
                  rw [← hpA2]
                  exact hdq
            · have hlt : dp < d := Nat.lt_of_le_of_ne hdple hfresh
              have hharm : Harmless net p dp st.dist := by
                rcases hinv.staleC p d hmem hpB dp hdp hlt with h1 | h1
                · exact h1
                · exfalso
                  have := hmin (p, dp) h1
                  dsimp only at this
                  omega
              rw [relaxEdges_stale net p dp d (Nat.le_of_lt hlt)
                (edgesOf net p.node) 0 { st with queue := rest } hdp
                (fun j => by simp) hharm] at h
              refine ih _ st' ?_ h
              refine dijkInv_pop net Aid Bid hinv hperm hAB ?_
              intro dx hdx hxB
              rw [hdp] at hdx
              have := Option.some.inj hdx
              omega

/-! ## Path cost bookkeeping (towards C4) -/

/-- Sum of the per-step travel times of a `TravelRoute`. -/
def sumTimes (steps : List Step) : Nat := (steps.map (fun s => s.travelTime)).sum

/-- Number of route changes: adjacent step pairs whose route ids differ. -/
def adjChanges : List Step → Nat
  | s :: s' :: rest => (if s.routeId = s'.routeId then 0 else 1) + adjChanges (s' :: rest)
  | _ => 0

/-- The cost of a step list in destination-to-origin order under the source's
cost model: edge times plus 5 per route change, no penalty on the origin
step (the last of the list). -/
def pathCost : List Step → Nat
  | [] => 0
  | [s] => s.travelTime
  | s :: s' :: rest =>
      s.travelTime + (if s.routeId = s'.routeId then 0 else 5) + pathCost (s' :: rest)

theorem pathCost_eq (l : List Step) :
    pathCost l = sumTimes l + 5 * adjChanges l := by
  induction l with
  | nil => rfl
  | cons s tail ih =>
      cases tail with
      | nil => simp [pathCost, sumTimes, adjChanges]
      | cons s' rest =>
          show s.travelTime + (if s.routeId = s'.routeId then 0 else 5) +
              pathCost (s' :: rest) = _
          rw [ih]
          show _ = s.travelTime + sumTimes (s' :: rest) +
            5 * ((if s.routeId = s'.routeId then 0 else 1) + adjChanges (s' :: rest))
          by_cases hc : s.routeId = s'.routeId
          · rw [if_pos hc, if_pos hc]
            ring
          · rw [if_neg hc, if_neg hc]
            ring

theorem sumTimes_reverse (l : List Step) : sumTimes l.reverse = sumTimes l := by
  simp [sumTimes, List.sum_reverse]

theorem adjChanges_append_singleton (l : List Step) (x : Step) :
    adjChanges (l ++ [x]) = adjChanges l +
      (match l.getLast? with
       | some y => if y.routeId = x.routeId then 0 else 1
       | none => 0) := by
  induction l with
  | nil => rfl
  | cons a tail ih =>
      cases tail with
      | nil =>
          show (if a.routeId = x.routeId then 0 else 1) + adjChanges [x] = _
          simp [adjChanges]
      | cons b t =>
          show (if a.routeId = b.routeId then 0 else 1) + adjChanges (b :: t ++ [x]) = _
          rw [ih]
          show _ = (if a.routeId = b.routeId then 0 else 1) + adjChanges (b :: t) +
            (match (a :: b :: t).getLast? with
             | some y => if y.routeId = x.routeId then 0 else 1
             | none => 0)
          rw [List.getLast?_cons_cons]
          omega

theorem adjChanges_reverse (l : List Step) : adjChanges l.reverse = adjChanges l := by
  induction l with
  | nil => rfl
  | cons x tail ih =>
      rw [List.reverse_cons, adjChanges_append_singleton, ih,
        List.getLast?_reverse]
      cases tail with
      | nil => rfl
      | cons s' rest =>
          rw [List.head?_cons]
          show adjChanges (s' :: rest) + (if s'.routeId = x.routeId then 0 else 1) =
            (if x.routeId = s'.routeId then 0 else 1) + adjChanges (s' :: rest)
          by_cases hc : s'.routeId = x.routeId
          · rw [if_pos hc, if_pos hc.symm]
            omega
          · rw [if_neg hc, if_neg (fun hc2 => hc hc2.symm)]
            omega

theorem selectMin_mem {l : List (PathStop × Nat)} {x : PathStop × Nat}
    (h : selectMin l = some x) : x ∈ l := by
  cases l with
  | nil => simp [selectMin] at h
  | cons a as =>
      simp only [selectMin, Option.some.injEq] at h
      subst h
      have hgen : ∀ (as : List (PathStop × Nat)) (a : PathStop × Nat),
          as.foldl (fun b y => if y.2 < b.2 then y else b) a ∈ a :: as := by
        intro as
        induction as with
        | nil => intro a; exact List.mem_cons_self _ _
        | cons b bs ih =>
            intro a
            show List.foldl _ (if b.2 < a.2 then b else a) bs ∈ _
            have := ih (if b.2 < a.2 then b else a)
            rcases List.mem_cons.mp this with h1 | h1
            · rw [h1]
              by_cases hc : b.2 < a.2
              · rw [if_pos hc]
                exact List.mem_cons_of_mem _ (List.mem_cons_self _ _)
              · rw [if_neg hc]
                exact List.mem_cons_self _ _
            · exact List.mem_cons_of_mem _ (List.mem_cons_of_mem _ h1)
      exact hgen as a

/-! ## Route-pointer / route-id coherence (towards C4) -/

/-- A network is well-keyed when, over all edges stored in it, two edges have
the same owning-route pointer exactly when they have the same route id.  This
holds for every network built through the API with globally unique route ids
(spec §3: route ids are globally unique). -/
def WellKeyed (net : TransportNetwork) : Prop :=
  ∀ p1 ∈ net.stations, ∀ e1 ∈ p1.2.edges, ∀ p2 ∈ net.stations, ∀ e2 ∈ p2.2.edges,
    (e1.routeKey = e2.routeKey ↔ e1.routeId = e2.routeId)

theorem derefEdge_mem {net : TransportNetwork} {r : EdgeRef} {e : GraphEdge}
    (h : derefEdge net r = some e) : ∃ pr ∈ net.stations, e ∈ pr.2.edges := by
  unfold derefEdge edgesOf GetStation at h
  cases halq : alookup net.stations r.src with
  | none =>
      rw [halq] at h
      simp at h
  | some n =>
      rw [halq] at h
      exact ⟨(r.src, n), alookup_mem halq, List.get?_mem h⟩

theorem wellKeyed_deref {net : TransportNetwork} (hw : WellKeyed net)
    {r1 r2 : EdgeRef} {e1 e2 : GraphEdge}
    (h1 : derefEdge net r1 = some e1) (h2 : derefEdge net r2 = some e2) :
    (e1.routeKey = e2.routeKey ↔ e1.routeId = e2.routeId) := by
  obtain ⟨p1, hp1, he1⟩ := derefEdge_mem h1
  obtain ⟨p2, hp2, he2⟩ := derefEdge_mem h2
  exact hw p1 hp1 e1 he1 p2 hp2 e2 he2

theorem reconstruct_nil_node {net : TransportNetwork}
    {prev : List (PathStop × PathStop)} {Aid : String} {fuel : Nat}
    {stop : PathStop}
    (h : reconstruct net prev Aid fuel stop = some []) : stop.node = Aid := by
  by_cases hA : stop.node = Aid
  · exact hA
  · exfalso
    cases fuel with
    | zero =>
        rw [reconstruct, if_neg hA] at h
        exact absurd h (by simp)
    | succ n =>
        rw [reconstruct, if_neg hA] at h
        cases h1 : alookup prev stop with
        | none => rw [h1] at h; exact absurd h (by simp)
        | some p =>
            rw [h1] at h
            dsimp only at h
            cases h2 : stop.edge with
            | none => rw [h2] at h; exact absurd h (by simp)
            | some r =>
                rw [h2] at h
                dsimp only at h
                cases h3 : derefEdge net r with
                | none => rw [h3] at h; exact absurd h (by simp)
                | some e =>
                    rw [h3] at h
                    dsimp only at h
                    cases h4 : reconstruct net prev Aid n p with
                    | none => rw [h4] at h; exact absurd h (by simp)
                    | some steps' => rw [h4] at h; simp at h

theorem reconstruct_cost (net : TransportNetwork) (Aid : String)
    (hw : WellKeyed net)
    (dist : List (PathStop × Nat)) (prev : List (PathStop × PathStop))
    (horigin : alookup dist ⟨Aid, none⟩ = some 0)
    (hprevEq : ∀ q pr, (q, pr) ∈ prev → ∃ c dq dpr, StepRel net pr q c ∧
        alookup dist q = some dq ∧ alookup dist pr = some dpr ∧ dq = dpr + c)
    (hfromA : ∀ q pr, (q, pr) ∈ prev → pr.node = Aid → pr.edge = none) :
    ∀ (fuel : Nat) (stop : PathStop) (steps : List Step) (dstop : Nat),
    reconstruct net prev Aid fuel stop = some steps →
    alookup dist stop = some dstop →
    (stop.node = Aid → stop = ⟨Aid, none⟩) →
    (dstop = pathCost steps ∧
     (∀ s rest', steps = s :: rest' →
        ∃ r e, stop.edge = some r ∧ derefEdge net r = some e ∧
          s.routeId = e.routeId)) := by
  intro fuel
  induction fuel with
  | zero =>
      intro stop steps dstop hrec hdist hchain
      rw [reconstruct] at hrec
      by_cases hA : stop.node = Aid
      · rw [if_pos hA] at hrec
        have hsteps : steps = [] := (Option.some.inj hrec).symm
        subst hsteps
        rw [hchain hA, horigin] at hdist
        exact ⟨(Option.some.inj hdist).symm, fun s rest' h => by simp at h⟩
      · rw [if_neg hA] at hrec
        exact absurd hrec (by simp)
  | succ n ih =>
      intro stop steps dstop hrec hdist hchain
      by_cases hA : stop.node = Aid
      · rw [reconstruct, if_pos hA] at hrec
        have hsteps : steps = [] := (Option.some.inj hrec).symm
        subst hsteps
        rw [hchain hA, horigin] at hdist
        exact ⟨(Option.some.inj hdist).symm, fun s rest' h => by simp at h⟩
      · rw [reconstruct, if_neg hA] at hrec
        cases h1 : alookup prev stop with
        | none => rw [h1] at hrec; exact absurd hrec (by simp)
        | some p =>
            rw [h1] at hrec
            dsimp only at hrec
            cases h2 : stop.edge with
            | none => rw [h2] at hrec; exact absurd hrec (by simp)
            | some r =>
                rw [h2] at hrec
                dsimp only at hrec
                cases h3 : derefEdge net r with
                | none => rw [h3] at hrec; exact absurd hrec (by simp)
                | some e =>
                    rw [h3] at hrec
                    dsimp only at hrec
                    cases h4 : reconstruct net prev Aid n p with
                    | none => rw [h4] at hrec; exact absurd hrec (by simp)
                    | some steps' =>
                        rw [h4] at hrec
                        dsimp only at hrec
                        have hsteps : steps =
                            ⟨p.node, stop.node, e.routeLineId, e.routeId,
                             e.travelTime⟩ :: steps' :=
                          (Option.some.inj hrec).symm
                        subst hsteps
                        have hpair : (stop, p) ∈ prev := alookup_mem h1
                        obtain ⟨c, dq, dpr, hstep, hdq, hdpr, heq⟩ :=
                          hprevEq stop p hpair
                        obtain ⟨i, e2, hqe, hget, hnode, hc⟩ := hstep
                        rw [h2] at hqe
                        have hre : r = ⟨p.node, i⟩ := Option.some.inj hqe
                        have hderef2 : derefEdge net r = some e2 := by
                          rw [hre]
                          exact hget
                        rw [h3] at hderef2
                        have hee : e = e2 := Option.some.inj hderef2
                        subst hee
                        rw [hdist] at hdq
                        have hdq2 : dstop = dq := Option.some.inj hdq
                        have hchainp : p.node = Aid → p = ⟨Aid, none⟩ := by
                          intro hpA
                          have hpe := hfromA stop p hpair hpA
                          obtain ⟨pn, pe⟩ := p
                          dsimp only at hpA hpe
                          rw [hpA, hpe]
                        obtain ⟨hcost', hhead'⟩ := ih p steps' dpr h4 hdpr hchainp
                        refine ⟨?_, ?_⟩
                        · cases hsteps' : steps' with
                          | nil =>
                              have hpA := reconstruct_nil_node (hsteps' ▸ h4)
                              have hpor := hchainp hpA
                              have hpen : penalty net p e = 0 := by
                                unfold penalty
                                rw [hpor]
                              rw [hsteps'] at hcost'
                              show dstop = pathCost [⟨p.node, stop.node,
                                e.routeLineId, e.routeId, e.travelTime⟩]
                              have hpc : pathCost [(⟨p.node, stop.node,
                                  e.routeLineId, e.routeId, e.travelTime⟩ : Step)] =
                                  e.travelTime := rfl
                              rw [hpc]
                              rw [hpen] at hc
                              have hpc0 : pathCost [] = 0 := rfl
                              rw [hpc0] at hcost'
                              omega
                          | cons s' rest2 =>
                              obtain ⟨r', e', hpe, hderef', hs'id⟩ :=
                                hhead' s' rest2 hsteps'
                              have hiff := wellKeyed_deref hw hderef' h3
                              have hpen : penalty net p e =
                                  (if e.routeId = s'.routeId then 0 else 5) := by
                                unfold penalty
                                rw [hpe]
                                dsimp only
                                rw [hderef']
                                dsimp only
                                by_cases hkey : e'.routeKey = e.routeKey
                                · rw [if_pos hkey, if_pos ?_]
                                  rw [hs'id, ← hiff.mp hkey]
                                · rw [if_neg hkey, if_neg ?_]
                                  intro hid
                                  exact hkey (hiff.mpr (by rw [← hs'id, hid]))
                              rw [hsteps'] at hcost'
                              show dstop = pathCost (⟨p.node, stop.node,
                                e.routeLineId, e.routeId, e.travelTime⟩ :: s' :: rest2)
                              have hpc : pathCost (⟨p.node, stop.node,
                                  e.routeLineId, e.routeId, e.travelTime⟩ :: s' :: rest2) =
                                  e.travelTime + (if e.routeId = s'.routeId then 0 else 5) +
                                  pathCost (s' :: rest2) := rfl
                              rw [hpc]
                              rw [hpen] at hc
                              omega
                        · intro s rest' hs
                          injection hs with h5 h6
                          refine ⟨r, e, rfl, h3, ?_⟩
                          rw [← h5]

/-- Two connections in sequence on different lines: `A - X` on `L1/R1` and
`X - B` on `L2/R2`, both of time 2, so the fastest `A` to `B` route pays one
route-change penalty (total 2 + 2 + 5 = 9). -/
def exNetChange : TransportNetwork :=
  (SetTravelTime "X" "B" 2 (SetTravelTime "A" "X" 2
    ((AddLine ⟨"L2", "L2", [⟨"R2", "d", "L2", "X", "B", ["X", "B"]⟩]⟩
      (AddLine ⟨"L1", "L1", [⟨"R1", "d", "L1", "A", "X", ["A", "X"]⟩]⟩
        (AddStation ⟨"B", "B"⟩ (AddStation ⟨"X", "X"⟩
          (AddStation ⟨"A", "A"⟩ emptyNetwork).2).2).2).2).2)).2).2

/-- C4: for every well-keyed network, any `TravelRoute` produced by
`GetFastestTravelRoute` satisfies: the sum of the steps' travel times plus 5
times the number of route changes (adjacent step pairs with differing route
ids) equals `totalTravelTime`; no penalty is counted at the origin. -/
theorem fastest_route_cost (fuel : Nat) (net : TransportNetwork) (A B : String)
    (r : TravelRoute) (hw : WellKeyed net)
    (h : GetFastestTravelRoute fuel net A B = some r) :
    sumTimes r.steps + 5 * adjChanges r.steps = r.totalTravelTime := by
  unfold GetFastestTravelRoute at h
  cases hA : GetStation net A with
  | none =>
      rw [hA] at h
      cases hB : GetStation net B with
      | none =>
          rw [hB] at h
          dsimp only at h
          rw [← Option.some.inj h]
          rfl
      | some nB =>
          rw [hB] at h
          dsimp only at h
          rw [← Option.some.inj h]
          rfl
  | some nA =>
      rw [hA] at h
      cases hB : GetStation net B with
      | none =>
          rw [hB] at h
          dsimp only at h
          rw [← Option.some.inj h]
          rfl
      | some nB =>
          rw [hB] at h
          dsimp only at h
          by_cases hAB : A = B
          · rw [if_pos hAB] at h
            rw [← Option.some.inj h]
            rfl
          · rw [if_neg hAB] at h
            cases hloop : dijkstraLoop net B [] fuel (initState A) with
            | none => rw [hloop] at h; exact absurd h (by simp)
            | some st =>
                rw [hloop] at h
                dsimp only at h
                obtain ⟨hfin, hqe⟩ := dijkstraLoop_inv net A B hAB fuel
                  (initState A) st (dijkInv_init net A B) hloop
                cases hsel : selectMin (st.dist.filter (fun p => p.1.node = B)) with
                | none =>
                    rw [hsel] at h
                    rw [← Option.some.inj h]
                    rfl
                | some pq =>
                    obtain ⟨stopB, dB⟩ := pq
                    rw [hsel] at h
                    dsimp only at h
                    cases hrec : reconstruct net st.prev A fuel stopB with
                    | none => rw [hrec] at h; exact absurd h (by simp)
                    | some steps =>
                        rw [hrec] at h
                        have hr : r = ⟨A, B, dB, steps.reverse⟩ :=
                          (Option.some.inj h).symm
                        have hmem := selectMin_mem hsel
                        have hmem2 : (stopB, dB) ∈ st.dist :=
                          List.mem_of_mem_filter hmem
                        have hnodeB : stopB.node = B := by
                          have := List.of_mem_filter hmem
                          simpa using this
                        have hlook : alookup st.dist stopB = some dB :=
                          mem_alookup hfin.distNodup hmem2
                        have hprevEq : ∀ q pr, (q, pr) ∈ st.prev → ∃ c dq dpr,
                            StepRel net pr q c ∧ alookup st.dist q = some dq ∧
                            alookup st.dist pr = some dpr ∧ dq = dpr + c := by
                          intro q pr hqpr
                          obtain ⟨c, dq, dpr, hstep, hdq, hdpr, hle, hdisj⟩ :=
                            hfin.prevRel q pr hqpr
                          refine ⟨c, dq, dpr, hstep, hdq, hdpr, ?_⟩
                          rcases hdisj with h1 | h1
                          · exact h1
                          · rw [hqe] at h1
                            exact absurd h1 (List.not_mem_nil _)
                        have hchain : stopB.node = A → stopB = ⟨A, none⟩ := by
                          intro hc
                          rw [hnodeB] at hc
                          exact absurd hc.symm hAB
                        obtain ⟨hcost, -⟩ := reconstruct_cost net A hw st.dist
                          st.prev hfin.origin0 hprevEq hfin.prevFromA fuel stopB
                          steps dB hrec hlook hchain
                        rw [hr]
                        show sumTimes steps.reverse + 5 * adjChanges steps.reverse = dB
                        rw [sumTimes_reverse, adjChanges_reverse, ← pathCost_eq,
                          ← hcost]

/-- Witness for C4 on the route-change network: the fastest `A` to `B` route
has steps of times 2 and 2 on different routes and total 9 = 2 + 2 + 5·1. -/
theorem fastest_route_cost_witness :
    WellKeyed exNetChange ∧
    GetFastestTravelRoute 50 exNetChange "A" "B" =
      some ⟨"A", "B", 9, [⟨"A", "X", "L1", "R1", 2⟩, ⟨"X", "B", "L2", "R2", 2⟩]⟩ ∧
    sumTimes [⟨"A", "X", "L1", "R1", 2⟩, ⟨"X", "B", "L2", "R2", 2⟩] +
      5 * adjChanges [⟨"A", "X", "L1", "R1", 2⟩, ⟨"X", "B", "L2", "R2", 2⟩] = 9 :=
  ⟨by unfold WellKeyed; decide, by decide,
   fastest_route_cost 50 exNetChange "A" "B"
     ⟨"A", "B", 9, [⟨"A", "X", "L1", "R1", 2⟩, ⟨"X", "B", "L2", "R2", 2⟩]⟩
     (by unfold WellKeyed; decide) (by decide)⟩

/-! ## C10: unknown stations vs. unreachable stations -/

/-- C10: when either queried id is not a station, `GetFastestTravelRoute`
returns the default `TravelRoute` (empty station ids, total 0, no steps)
without throwing; between two known but unconnected stations it instead
returns a `TravelRoute` carrying the queried ids with empty steps. -/
theorem fastest_route_unknown_vs_unreachable (fuel : Nat)
    (net : TransportNetwork) (A B : String) :
    ((GetStation net A = none ∨ GetStation net B = none) →
       GetFastestTravelRoute fuel net A B = some ⟨"", "", 0, []⟩) ∧
    (∀ r, GetStation net A ≠ none → GetStation net B ≠ none → A ≠ B →
       ¬ Reachable net A B →
       GetFastestTravelRoute fuel net A B = some r → r = ⟨A, B, 0, []⟩) := by
  constructor
  · intro hor
    unfold GetFastestTravelRoute
    cases hA : GetStation net A with
    | none => cases hB : GetStation net B <;> rfl
    | some nA =>
        cases hB : GetStation net B with
        | none => rfl
        | some nB =>
            rcases hor with h1 | h1
        
            · rw [hA] at h1
              exact absurd h1 (by simp)
            · rw [hB] at h1
              exact absurd h1 (by simp)
  · intro r hA hB hAB hreach h
    unfold GetFastestTravelRoute at h
    cases hgA : GetStation net A with
    | none => exact absurd hgA hA
    | some nA =>
        rw [hgA] at h
        cases hgB : GetStation net B with
        | none => exact absurd hgB hB
        | some nB =>
            rw [hgB] at h
            dsimp only at h
            rw [if_neg hAB] at h
            cases hloop : dijkstraLoop net B [] fuel (initState A) with
            | none => rw [hloop] at h; exact absurd h (by simp)
            | some st =>
                rw [hloop] at h
                dsimp only at h
                obtain ⟨hfin, -⟩ := dijkstraLoop_inv net A B hAB fuel
                  (initState A) st (dijkInv_init net A B) hloop
                have hfilter : st.dist.filter (fun p => p.1.node = B) = [] := by
                  rw [List.filter_eq_nil_iff]
                  intro ⟨k, v⟩ hkv
                  intro hc
                  have hk : k.node = B := by simpa using hc
                  have := hfin.reach k v hkv
                  rw [hk] at this
                  exact hreach this
                rw [hfilter] at h
                have hsel : selectMin ([] : List (PathStop × Nat)) = none := rfl
                rw [hsel] at h
                exact (Option.some.inj h).symm

/-- Witness for C10: an unknown destination id yields the default route; the
two known but edge-less stations of `exNetAB` yield the id-carrying empty
route. -/
theorem fastest_route_unknown_witness :
    GetFastestTravelRoute 30 exNetAB "A" "Z" = some ⟨"", "", 0, []⟩ ∧
    (⟨"A", "B", 0, []⟩ : TravelRoute) = ⟨"A", "B", 0, []⟩ := by
  have hnoreach : ¬ Reachable exNetAB "A" "B" := by
    intro hre
    rcases Relation.ReflTransGen.cases_head hre with h1 | ⟨c, hc, -⟩
    · exact absurd h1 (by decide)
    · obtain ⟨e, he, -⟩ := hc
      have hedges : edgesOf exNetAB "A" = [] := rfl
      rw [hedges] at he
      exact absurd he (List.not_mem_nil e)
  refine ⟨(fastest_route_unknown_vs_unreachable 30 exNetAB "A" "Z").1
    (Or.inr (by decide)), ?_⟩
  exact (fastest_route_unknown_vs_unreachable 30 exNetAB "A" "B").2
    ⟨"A", "B", 0, []⟩ (by decide) (by decide) (by decide) hnoreach (by decide)

/-! ## C3: quiet route with zero slowdown budget (spec-modelled) -/

theorem pickQuietest_mem {net : TransportNetwork} {l : List TravelRoute}
    {x : TravelRoute} (h : pickQuietest net l = some x) : x ∈ l := by
  cases l with
  | nil => simp [pickQuietest] at h
  | cons a as =>
      simp only [pickQuietest, Option.some.injEq] at h
      subst h
      have hgen : ∀ (as : List TravelRoute) (a : TravelRoute),
          as.foldl (fun b y =>
            if crowding net y < crowding net b ∨
               (crowding net y = crowding net b ∧
                y.totalTravelTime < b.totalTravelTime)
            then y else b) a ∈ a :: as := by
        intro as
        induction as with
        | nil => intro a; exact List.mem_cons_self _ _
        | cons b bs ih =>
            intro a
            rw [List.foldl_cons]
            have := ih (if crowding net b < crowding net a ∨
               (crowding net b = crowding net a ∧
                b.totalTravelTime < a.totalTravelTime) then b else a)
            rcases List.mem_cons.mp this with h1 | h1
            · rw [h1]
              by_cases hc : crowding net b < crowding net a ∨
                 (crowding net b = crowding net a ∧
                  b.totalTravelTime < a.totalTravelTime)
              · rw [if_pos hc]
                exact List.mem_cons_of_mem _ (List.mem_cons_self _ _)
              · rw [if_neg hc]
                exact List.mem_cons_self _ _
            · exact List.mem_cons_of_mem _ (List.mem_cons_of_mem _ h1)
      exact hgen as a

/-- C3 (amended, spec-modelled): with a zero slowdown budget the quiet route
has the same total travel time as the fastest route, for every
`minQuietnessPc` and every `maxNPaths` — but it need not be the same
`TravelRoute` (see the counterexample: an equal-cost, less crowded path may
be adopted). -/
theorem quiet_zero_same_total (fuel : Nat) (net : TransportNetwork)
    (A B : String) (q : ℚ) (n : Nat) (r f : TravelRoute)
    (hq : GetQuietTravelRoute fuel net A B 0 q n = some r)
    (hf : GetFastestTravelRoute fuel net A B = some f) :
    r.totalTravelTime = f.totalTravelTime := by
  unfold GetQuietTravelRoute at hq
  unfold GetFastestTravelRoute at hf
  cases hA : GetStation net A with
  | none =>
      rw [hA] at hq hf
      cases hB : GetStation net B with
      | none =>
          rw [hB] at hq hf
          dsimp only at hq hf
          rw [← Option.some.inj hq, ← Option.some.inj hf]
      | some nB =>
          rw [hB] at hq hf
          dsimp only at hq hf
          rw [← Option.some.inj hq, ← Option.some.inj hf]
  | some nA =>
      rw [hA] at hq hf
      cases hB : GetStation net B with
      | none =>
          rw [hB] at hq hf
          dsimp only at hq hf
          rw [← Option.some.inj hq, ← Option.some.inj hf]
      | some nB =>
          rw [hB] at hq hf
          dsimp only at hq hf
          by_cases hAB : A = B
          · rw [if_pos hAB] at hq hf
            rw [← Option.some.inj hq, ← Option.some.inj hf]
          · rw [if_neg hAB] at hq hf
            cases hloop : dijkstraLoop net B [] fuel (initState A) with
            | none => rw [hloop] at hq; exact absurd hq (by simp)
            | some st =>
                rw [hloop] at hq hf
                dsimp only at hq hf
                cases hsel : selectMin (st.dist.filter (fun p => p.1.node = B)) with
                | none =>
                    rw [hsel] at hq hf
                    rw [← Option.some.inj hq, ← Option.some.inj hf]
                | some pq =>
                    obtain ⟨stopB, dB⟩ := pq
                    rw [hsel] at hq hf
                    dsimp only at hq hf
                    cases hrec : reconstruct net st.prev A fuel stopB with
                    | none => rw [hrec] at hq; exact absurd hq (by simp)
                    | some steps =>
                        rw [hrec] at hq hf
                        cases hrecs : reconstructStops st.prev A fuel stopB with
                        | none => rw [hrecs] at hq; exact absurd hq (by simp)
                        | some chain =>
                            rw [hrecs] at hq
                            dsimp only at hq
                            have hfv : f = ⟨A, B, dB, steps.reverse⟩ :=
                              (Option.some.inj hf).symm
                            rw [hfv]
                            split at hq
                            next hpick =>
                              rw [← Option.some.inj hq]
                            next r2 hpick =>
                              have hr2 : r = r2 := (Option.some.inj hq).symm
                              subst hr2
                              have hmemq := pickQuietest_mem hpick
                              have hmemw := List.mem_of_mem_filter hmemq
                              have hbounds := List.of_mem_filter hmemw
                              rw [Bool.and_eq_true, decide_eq_true_eq,
                                decide_eq_true_eq] at hbounds
                              obtain ⟨hlb, hub⟩ := hbounds
                              have hub2 : (r.totalTravelTime : ℚ) ≤ (dB : ℚ) := by
                                have hone : (dB : ℚ) * (1 + 0) = (dB : ℚ) := by norm_num
                                rw [hone] at hub
                                exact hub
                              have hub3 : r.totalTravelTime ≤ dB :=
                                Nat.cast_le.mp hub2
                              exact Nat.le_antisymm hub3 hlb

/-- C3 counterexample: on `exNetQuiet` with a zero slowdown budget the quiet
route is not the fastest route — an equal-cost but less crowded path (via X
instead of the crowded Y) is adopted, so the original claim that the quiet
route "is the fastest route" is false even at `maxSlowdownPc = 0`. -/
theorem quiet_zero_not_fastest_cex :
    GetFastestTravelRoute 60 exNetQuiet "A" "B" =
      some ⟨"A", "B", 4, [⟨"A", "Y", "L2", "R2", 2⟩, ⟨"Y", "B", "L2", "R2", 2⟩]⟩ ∧
    GetQuietTravelRoute 60 exNetQuiet "A" "B" 0 (1/2) 10 =
      some ⟨"A", "B", 4, [⟨"A", "X", "L1", "R1", 2⟩, ⟨"X", "B", "L1", "R1", 2⟩]⟩ ∧
    GetQuietTravelRoute 60 exNetQuiet "A" "B" 0 (1/2) 10 ≠
      GetFastestTravelRoute 60 exNetQuiet "A" "B" := by
  refine ⟨by decide, by with_unfolding_all decide, by with_unfolding_all decide⟩

/-- Witness for `quiet_zero_same_total` at a concrete network. -/
theorem quiet_zero_same_total_witness :
    (⟨"A", "B", 4, [⟨"A", "X", "L1", "R1", 2⟩, ⟨"X", "B", "L1", "R1", 2⟩]⟩ :
        TravelRoute).totalTravelTime =
      (⟨"A", "B", 4, [⟨"A", "Y", "L2", "R2", 2⟩, ⟨"Y", "B", "L2", "R2", 2⟩]⟩ :
        TravelRoute).totalTravelTime :=
  quiet_zero_same_total 60 exNetQuiet "A" "B" (1/2) 10 _ _
    (by with_unfolding_all decide) (by decide)
